import Mathlib

/-!
# CLI argument inspection utilities (`utils/coreutils/cmdutils.go`)

A shallow embedding of the flag locator / extractor of `cmdutils.go`, followed by the
properties of it stated in the specification of the module.

Modelling conventions
* A Go `string` is an immutable byte sequence: `GoString := List UInt8`.
  `len`, `strings.HasPrefix`, `strings.TrimPrefix` and `s[1:]` are byte operations.
* A `[]string` is modelled by the list of its visible elements (indices `0 .. len-1`).
  Where aliasing matters, the functions are given a second time on a heap of backing arrays
  with slice headers (names ending in `Mem`), and shown to compute the same lists.
* A Go `int` index is an `Int`; the sentinel is `-1`.  Index arithmetic never leaves the
  range of a machine integer because indices are bounded by `len(args)`.
* A Go `error` is `Option Error`, `none` being `nil`.
* A function that can panic at run time (index or slice bounds out of range) returns an
  `Option`, `none` being the panic.
-/

namespace Coreutils

/-- A Go string: an immutable sequence of bytes. -/
abbrev GoString := List UInt8

/-- The bytes (UTF-8) of a string literal of the source. -/
def str (s : String) : GoString := s.data.flatMap String.utf8EncodeChar

/-- Go `strings.HasPrefix(s, prefix)`: `len(s) >= len(prefix) && s[:len(prefix)] == prefix`. -/
def HasPrefix (s pre : GoString) : Bool :=
  decide (s.length ≥ pre.length) && (s.take pre.length == pre)

/-- Go `strings.TrimPrefix(s, prefix)`: `s[len(prefix):]` when `s` has the prefix, else `s`. -/
def TrimPrefix (s pre : GoString) : GoString :=
  if HasPrefix s pre then s.drop pre.length else s

/-- Go index expression `a[i]` on the visible elements of a slice; `none` is the
index-out-of-range panic. -/
def index {α : Type} (a : List α) (i : Int) : Option α :=
  if 0 ≤ i then a[i.toNat]? else none

/-- The errors this file can return.  Only the message template and its argument are kept. -/
inductive Error where
  /-- Message "Flag %s is provided with empty value." -/
  | emptyValue (flagName : GoString)
  /-- Message "Failed extracting value of provided flag: %s." -/
  | failedExtracting (flagName : GoString)
  /-- Syntax error of `strconv.ParseBool` on the given literal. -/
  | parseBoolSyntax (s : GoString)
  /-- Syntax error of `strconv.Atoi` on the given literal. -/
  | atoiSyntax (s : GoString)
  /-- Range error of `strconv.Atoi` on the given literal. -/
  | atoiRange (s : GoString)
  deriving DecidableEq

/-- The function `errorutils.CheckError` of jfrog-client-go: returns its (non-nil) argument,
possibly decorated; it never turns an error into `nil`. -/
def CheckError (e : Error) : Error := e

/-- The four named results of `FindFlag`. -/
structure FlagResult where
  flagIndex : Int
  flagValueIndex : Int
  flagValue : GoString
  err : Option Error
  deriving DecidableEq

/-- Source `getFlagValueAndValueIndex` (lines 64-95).  Result `(flagValue, flagValueIndex, err)`. -/
def getFlagValueAndValueIndex (flagName : GoString) (args : List GoString) (flagIndex : Int) :
    Option (GoString × Int × Option Error) :=
  match index args flagIndex with
  | none => none
  | some indexValue =>
    -- Check if flag is in form '--key=value'
    let indexValue := TrimPrefix indexValue flagName
    if HasPrefix indexValue (str "=") then
      if indexValue.length > 1 then
        some (indexValue.drop 1, flagIndex, none)
      else
        some ([], -1, some (CheckError (Error.emptyValue flagName)))
    -- Check if it is a different flag with same prefix
    else if indexValue.length > 0 then
      some ([], -1, none)
    -- If reached here, expect the flag value in next argument.
    else if (args.length : Int) < flagIndex + 2 then
      some ([], -1, some (CheckError (Error.failedExtracting flagName)))
    else
      match index args (flagIndex + 1) with
      | none => none
      | some nextIndexValue =>
        -- Don't allow next value to be a flag.
        if HasPrefix nextIndexValue (str "-") then
          some ([], -1, some (CheckError (Error.failedExtracting flagName)))
        else
          some (nextIndexValue, flagIndex + 1, none)

/-- The `for index, arg := range args` loop of `FindFlag` (lines 34-54): `rest` are the
elements still to visit, `idx` the index of the first of them, `r` the current values of the
named results. -/
def findFlagLoop (flagName : GoString) (args : List GoString) :
    List GoString → Int → FlagResult → Option FlagResult
  | [], _, r => some r
  | arg :: rest, idx, r =>
    if !HasPrefix arg flagName then
      findFlagLoop flagName args rest (idx + 1) r
    else
      match getFlagValueAndValueIndex flagName args idx with
      | none => none
      | some (flagValue, flagValueIndex, err) =>
        let r := { r with flagValue := flagValue, flagValueIndex := flagValueIndex, err := err }
        if err ≠ none then
          some r
        else if flagValueIndex = -1 then
          findFlagLoop flagName args rest (idx + 1) r
        else
          some { r with flagIndex := idx }

/-- Source `FindFlag` (lines 31-58). -/
def FindFlag (flagName : GoString) (args : List GoString) : Option FlagResult :=
  findFlagLoop flagName args args 0
    { flagIndex := -1, flagValueIndex := -1, flagValue := [], err := none }


/-- Go `strconv.ParseBool`: accepts 1, t, T, TRUE, true, True, 0, f, F, FALSE, false,
False; any other value returns `false` and a syntax error. -/
def ParseBool (s : GoString) : Bool × Option Error :=
  if s = str "1" ∨ s = str "t" ∨ s = str "T" ∨ s = str "TRUE" ∨ s = str "true"
      ∨ s = str "True" then
    (true, none)
  else if s = str "0" ∨ s = str "f" ∨ s = str "F" ∨ s = str "FALSE" ∨ s = str "false"
      ∨ s = str "False" then
    (false, none)
  else
    (false, some (Error.parseBoolSyntax s))

/-- The three named results of `FindBooleanFlag`. -/
structure BoolFlagResult where
  flagIndex : Int
  flagValue : Bool
  err : Option Error
  deriving DecidableEq

/-- The `for flagIndex, arg = range args` loop of `FindBooleanFlag` (lines 107-120) together
with the final `return -1, false, nil`: `idx` is the value the loop assigns to the named
result `flagIndex` for the first element of the remaining list.  The named results
`flagValue` and `err` hold their zero values until the iteration that returns. -/
def findBooleanFlagLoop (flagName : GoString) : List GoString → Int → BoolFlagResult
  | [], _ => { flagIndex := -1, flagValue := false, err := none }
  | arg :: rest, idx =>
    if HasPrefix arg flagName then
      let value := TrimPrefix arg flagName
      if value.length = 0 then
        { flagIndex := idx, flagValue := true, err := none }
      else if HasPrefix value (str "=") then
        -- value[1:] is in bounds: value begins with "="
        let p := ParseBool (value.drop 1)
        { flagIndex := idx, flagValue := p.1, err := p.2 }
      else
        findBooleanFlagLoop flagName rest (idx + 1)
    else
      findBooleanFlagLoop flagName rest (idx + 1)

/-- Source `FindBooleanFlag` (lines 105-122). -/
def FindBooleanFlag (flagName : GoString) (args : List GoString) : BoolFlagResult :=
  findBooleanFlagLoop flagName args 0

/-- The `for _, flag := range flags` loop of `FindFlagFirstMatch` (lines 128-137); `r` holds
the current values of the named results, returned as they are when the loop runs out. -/
def findFlagFirstMatchLoop (args : List GoString) :
    List GoString → FlagResult → Option FlagResult
  | [], r => some r
  | flag :: rest, _ =>
    match FindFlag flag args with
    | none => none
    | some r =>
      if r.err ≠ none then
        some r
      else if r.flagIndex ≠ -1 then
        some r
      else
        findFlagFirstMatchLoop args rest r

/-- Source `FindFlagFirstMatch` (lines 126-139).  The named results start at their zero
values `0, 0, "", nil`. -/
def FindFlagFirstMatch (flags args : List GoString) : Option FlagResult :=
  findFlagFirstMatchLoop args flags
    { flagIndex := 0, flagValueIndex := 0, flagValue := [], err := none }

/-- Go slice expression `s[:hi]` on the visible elements of a slice.  `none` when `hi` is
negative or exceeds the length: the run time then either panics or exposes elements of the
backing array beyond the length, which the list view does not carry. -/
def sliceTo {α : Type} (s : List α) (hi : Int) : Option (List α) :=
  if 0 ≤ hi ∧ hi ≤ (s.length : Int) then some (s.take hi.toNat) else none

/-- Go slice expression `s[lo:]`; `none` is the slice-bounds-out-of-range panic
(`lo < 0` or `lo > len(s)`). -/
def sliceFrom {α : Type} (s : List α) (lo : Int) : Option (List α) :=
  if 0 ≤ lo ∧ lo ≤ (s.length : Int) then some (s.drop lo.toNat) else none

/-- Source `RemoveFlagFromCommand` (lines 15-22): the new value of `*args`. -/
def RemoveFlagFromCommand (args : List GoString) (flagIndex flagValueIndex : Int) :
    Option (List GoString) :=
  let argsCopy := args
  -- Remove flag from Command if required.
  if flagIndex ≠ -1 then
    match sliceTo argsCopy flagIndex, sliceFrom argsCopy (flagValueIndex + 1) with
    | some front, some back => some (front ++ back)
    | _, _ => none
  else
    some argsCopy

/-- Bit size of a Go `int` (`strconv.IntSize`) on the 64-bit targets. -/
def intSize : Nat := 64

/-- The two kinds of `strconv.NumError`. -/
inductive NumErr where
  | ErrSyntax
  | ErrRange
  deriving DecidableEq

/-- The digit loop of Go `strconv.ParseUint(s, 10, 0)`: `n` is the value accumulated so far.
A byte that is not a decimal digit is a syntax error with value 0; an overflow is a range
error with the maximal value. -/
def parseUintLoop : List UInt8 → Nat → Nat × Option NumErr
  | [], n => (n, none)
  | c :: rest, n =>
    if 48 ≤ c.toNat ∧ c.toNat ≤ 57 then
      let d := c.toNat - 48
      -- cutoff = maxUint64/10 + 1
      if n ≥ (2 ^ 64 - 1) / 10 + 1 then
        (2 ^ intSize - 1, some NumErr.ErrRange)
      else
        let n1 := n * 10 + d
        if n1 > 2 ^ intSize - 1 then
          (2 ^ intSize - 1, some NumErr.ErrRange)
        else
          parseUintLoop rest n1
    else
      (0, some NumErr.ErrSyntax)

/-- Go `strconv.ParseUint(s, 10, 0)`. -/
def ParseUint (s : GoString) : Nat × Option NumErr :=
  if s = [] then (0, some NumErr.ErrSyntax) else parseUintLoop s 0

/-- Go `strconv.ParseInt(s, 10, 0)`. -/
def ParseInt (s : GoString) : Int × Option Error :=
  if s = [] then
    (0, some (Error.atoiSyntax s))
  else
    -- Pick off leading sign: '+' is 43, '-' is 45.
    let neg : Bool := s.head? = some 45
    let body := if s.head? = some 43 ∨ s.head? = some 45 then s.drop 1 else s
    let p := ParseUint body
    if p.2 = some NumErr.ErrSyntax then
      (0, some (Error.atoiSyntax s))
    else if neg = false ∧ p.1 ≥ 2 ^ (intSize - 1) then
      ((2 ^ (intSize - 1) : Int) - 1, some (Error.atoiRange s))
    else if neg = true ∧ p.1 > 2 ^ (intSize - 1) then
      (-(2 ^ (intSize - 1) : Int), some (Error.atoiRange s))
    else
      (if neg then -(p.1 : Int) else (p.1 : Int), none)

/-- Go `strconv.Atoi(s)`: by its documentation `ParseInt(s, 10, 0)` converted to `int`. -/
def Atoi (s : GoString) : Int × Option Error := ParseInt s

/-- Go `append([]string(nil), args...)`: a fresh slice holding the elements of `args`. -/
def copyArgs (args : List GoString) : List GoString := [] ++ args

/-- Source `ExtractThreadsFromArgs` (lines 145-162).  Result `(cleanArgs, threads, err)`. -/
def ExtractThreadsFromArgs (args : List GoString) (defaultValue : Int) :
    Option (List GoString × Int × Option Error) :=
  let cleanArgs := copyArgs args
  let threads := defaultValue
  -- Extract threads information from the args.
  match FindFlag (str "--threads") cleanArgs with
  | none => none
  | some r =>
    if r.err ≠ none then
      some (cleanArgs, threads, r.err)
    else
      match RemoveFlagFromCommand cleanArgs r.flagIndex r.flagValueIndex with
      | none => none
      | some cleanArgs =>
        if r.flagValue ≠ [] then
          let p := Atoi r.flagValue
          some (cleanArgs, p.1, p.2.map CheckError)
        else
          some (cleanArgs, threads, r.err)

/-- Source `ExtractStringOptionFromArgs` (lines 214-223).  Result `(cleanArgs, value, err)`. -/
def ExtractStringOptionFromArgs (args : List GoString) (optionName : GoString) :
    Option (List GoString × GoString × Option Error) :=
  let cleanArgs := copyArgs args
  match FindFlag (str "--" ++ optionName) cleanArgs with
  | none => none
  | some r =>
    if r.err ≠ none then
      some (cleanArgs, r.flagValue, r.err)
    else
      match RemoveFlagFromCommand cleanArgs r.flagIndex r.flagValueIndex with
      | none => none
      | some cleanArgs => some (cleanArgs, r.flagValue, r.err)

/-- Source `extractBoolOptionFromArgs` (lines 229-239).  Result `(cleanArgs, value, err)`. -/
def extractBoolOptionFromArgs (args : List GoString) (optionName : GoString) :
    Option (List GoString × Bool × Option Error) :=
  let cleanArgs := copyArgs args
  let r := FindBooleanFlag (str "--" ++ optionName) cleanArgs
  if r.err ≠ none then
    some (cleanArgs, r.flagValue, r.err)
  else
    -- the value index is the same as the flag index
    match RemoveFlagFromCommand cleanArgs r.flagIndex r.flagIndex with
    | none => none
    | some cleanArgs => some (cleanArgs, r.flagValue, r.err)

/-- Source `ExtractBoolFlagFromArgs` (lines 174-176). -/
def ExtractBoolFlagFromArgs (args : List GoString) (flagName : GoString) :
    Option (List GoString × Bool × Option Error) :=
  extractBoolOptionFromArgs args flagName

/-- Source `ExtractServerIdFromCommand` (lines 141-143). -/
def ExtractServerIdFromCommand (args : List GoString) :
    Option (List GoString × GoString × Option Error) :=
  ExtractStringOptionFromArgs args (str "server-id")

/-! ## Decimal numerals -/

/-- The decimal numeral of a natural number as ASCII bytes, most significant digit first and
without leading zeros; zero is written "0". -/
def natNumeral (n : Nat) : GoString :=
  if n = 0 then [48] else (Nat.digits 10 n).reverse.map (fun d => UInt8.ofNat (48 + d))

/-- The decimal numeral of an integer: the numeral of its absolute value, preceded by "-"
(byte 45) when the integer is negative. -/
def intNumeral (k : Int) : GoString :=
  if k < 0 then 45 :: natNumeral k.natAbs else natNumeral k.natAbs

/-! ## The output formatter -/

/-- The styles of `gookit/color` that this file renders with. -/
inductive Color where
  | Cyan
  | Bold
  | Gray
  | Red
  | Yellow
  | Green
  deriving DecidableEq

/-- The collaborators of the formatter, none of which is code of this repository: the
terminal predicates `log.IsStdOutTerminal()` and `log.IsColorsSupported()` (their values at
the time of the call), `gomoji.ContainsEmoji`, `gomoji.RemoveEmojis`, and the method
`Render` of a `color.Color`. -/
structure Terminal where
  IsStdOutTerminal : Bool
  IsColorsSupported : Bool
  ContainsEmoji : GoString → Bool
  RemoveEmojis : GoString → GoString
  Render : Color → GoString → GoString

/-- Source `colorStr` (lines 282-292). -/
def colorStr (t : Terminal) (s : GoString) (c : Color) : GoString :=
  -- Add styles only on supported terminals
  if t.IsStdOutTerminal && t.IsColorsSupported then
    t.Render c s
  else
    -- Remove emojis from non-supported terminals
    let s := if t.ContainsEmoji s then t.RemoveEmojis s else s
    s

/-- Source `RemoveEmojisIfNonSupportedTerminal` (lines 295-302). -/
def RemoveEmojisIfNonSupportedTerminal (t : Terminal) (msg : GoString) : GoString :=
  if !(t.IsStdOutTerminal && t.IsColorsSupported) then
    if t.ContainsEmoji msg then t.RemoveEmojis msg else msg
  else
    msg

/-- Source `PrintGreen` (lines 277-279). -/
def PrintGreen (t : Terminal) (s : GoString) : GoString := colorStr t s Color.Green

/-- Source `PrintTitle` (lines 242-244). -/
def PrintTitle (t : Terminal) (s : GoString) : GoString := PrintGreen t s

/-- Source `PrintLink` (lines 247-249). -/
def PrintLink (t : Terminal) (s : GoString) : GoString := colorStr t s Color.Cyan

/-- Source `PrintBold` (lines 252-254). -/
def PrintBold (t : Terminal) (s : GoString) : GoString := colorStr t s Color.Bold

/-- Source `PrintBoldTitle` (lines 257-259). -/
def PrintBoldTitle (t : Terminal) (s : GoString) : GoString := PrintBold t (PrintTitle t s)

/-- Source `PrintComment` (lines 262-264). -/
def PrintComment (t : Terminal) (s : GoString) : GoString := colorStr t s Color.Gray

/-- Source `PrintRed` (lines 267-269). -/
def PrintRed (t : Terminal) (s : GoString) : GoString := colorStr t s Color.Red

/-- Source `PrintYellow` (lines 272-274). -/
def PrintYellow (t : Terminal) (s : GoString) : GoString := colorStr t s Color.Yellow

/-! ## Slices over backing arrays -/

/-- The heap of backing arrays of `[]string` values, addressed by allocation number. -/
abbrev Heap := List (List GoString)

/-- A Go slice header: the backing array it points into, the offset of its first element in
that array, its length and its capacity. -/
structure Slice where
  arr : Nat
  off : Nat
  len : Nat
  cap : Nat
  deriving DecidableEq

/-- The nil slice `[]string(nil)`: length and capacity 0; its array is never dereferenced. -/
def Slice.nil : Slice := { arr := 0, off := 0, len := 0, cap := 0 }

/-- The backing array a slice header points into. -/
def Slice.array (h : Heap) (s : Slice) : List GoString := (h[s.arr]?).getD []

/-- The elements a slice shows: `len` elements of its backing array, starting at `off`. -/
def Slice.elems (h : Heap) (s : Slice) : List GoString := ((s.array h).drop s.off).take s.len

/-- A slice header is valid in a heap when its array is allocated and holds the `cap`
elements from `off` on, and the length does not exceed the capacity. -/
def Slice.valid (h : Heap) (s : Slice) : Prop :=
  s.len ≤ s.cap ∧ (s.cap = 0 ∨ (s.arr < h.length ∧ s.off + s.cap ≤ (s.array h).length))

/-- Go slice expression `s[:hi]` on a slice header: in range when `0 <= hi <= cap(s)`. -/
def Slice.sliceHigh (s : Slice) (hi : Int) : Option Slice :=
  if 0 ≤ hi ∧ hi ≤ (s.cap : Int) then some { s with len := hi.toNat } else none

/-- Go slice expression `s[lo:]` on a slice header: in range when `0 <= lo <= len(s)`. -/
def Slice.sliceLow (s : Slice) (lo : Int) : Option Slice :=
  if 0 ≤ lo ∧ lo ≤ (s.len : Int) then
    some { arr := s.arr, off := s.off + lo.toNat, len := s.len - lo.toNat,
           cap := s.cap - lo.toNat }
  else none

/-- Go `append(s, xs...)` with `xs` already read from the heap (the copy has `memmove`
semantics, so overlapping source and destination behave as read-then-write).  With enough
capacity the elements are written into the backing array of `s` right after its length;
otherwise a new array is allocated, of the capacity `grow (cap s) (needed length)` that the
run time picks, holding the old elements, then `xs`, then zero values. -/
def appendSlice (grow : Nat → Nat → Nat) (h : Heap) (s : Slice) (xs : List GoString) :
    Heap × Slice :=
  if xs = [] then
    (h, s)
  else if s.len + xs.length ≤ s.cap then
    let a := s.array h
    let a' := a.take (s.off + s.len) ++ xs ++ a.drop (s.off + s.len + xs.length)
    (h.set s.arr a', { s with len := s.len + xs.length })
  else
    let c := grow s.cap (s.len + xs.length)
    let a' := s.elems h ++ xs ++ List.replicate (c - (s.len + xs.length)) []
    (h ++ [a'], { arr := h.length, off := 0, len := s.len + xs.length, cap := c })

/-- Source `RemoveFlagFromCommand` (lines 15-22) on the heap: `args` is the slice header
stored in `*args`; the result is the heap after the call and the header then stored in
`*args`. -/
def RemoveFlagFromCommandMem (grow : Nat → Nat → Nat) (h : Heap) (args : Slice)
    (flagIndex flagValueIndex : Int) : Option (Heap × Slice) :=
  let argsCopy := args
  -- Remove flag from Command if required.
  if flagIndex ≠ -1 then
    match argsCopy.sliceHigh flagIndex, argsCopy.sliceLow (flagValueIndex + 1) with
    | some front, some back => some (appendSlice grow h front (back.elems h))
    | _, _ => none
  else
    some (h, argsCopy)

/-- Source `ExtractStringOptionFromArgs` (lines 214-223) on the heap.  Result
`(heap, cleanArgs, value, err)`. -/
def ExtractStringOptionFromArgsMem (grow : Nat → Nat → Nat) (h : Heap) (args : Slice)
    (optionName : GoString) : Option (Heap × Slice × GoString × Option Error) :=
  let copied := appendSlice grow h Slice.nil (args.elems h)
  match FindFlag (str "--" ++ optionName) (copied.2.elems copied.1) with
  | none => none
  | some r =>
    if r.err ≠ none then
      some (copied.1, copied.2, r.flagValue, r.err)
    else
      match RemoveFlagFromCommandMem grow copied.1 copied.2 r.flagIndex r.flagValueIndex with
      | none => none
      | some removed => some (removed.1, removed.2, r.flagValue, r.err)

/-- Source `extractBoolOptionFromArgs` (lines 229-239) on the heap.  Result
`(heap, cleanArgs, value, err)`. -/
def extractBoolOptionFromArgsMem (grow : Nat → Nat → Nat) (h : Heap) (args : Slice)
    (optionName : GoString) : Option (Heap × Slice × Bool × Option Error) :=
  let copied := appendSlice grow h Slice.nil (args.elems h)
  let r := FindBooleanFlag (str "--" ++ optionName) (copied.2.elems copied.1)
  if r.err ≠ none then
    some (copied.1, copied.2, r.flagValue, r.err)
  else
    match RemoveFlagFromCommandMem grow copied.1 copied.2 r.flagIndex r.flagIndex with
    | none => none
    | some removed => some (removed.1, removed.2, r.flagValue, r.err)

/-- Source `ExtractBoolFlagFromArgs` (lines 174-176) on the heap. -/
def ExtractBoolFlagFromArgsMem (grow : Nat → Nat → Nat) (h : Heap) (args : Slice)
    (flagName : GoString) : Option (Heap × Slice × Bool × Option Error) :=
  extractBoolOptionFromArgsMem grow h args flagName

/-- Source `ExtractThreadsFromArgs` (lines 145-162) on the heap.  Result
`(heap, cleanArgs, threads, err)`. -/
def ExtractThreadsFromArgsMem (grow : Nat → Nat → Nat) (h : Heap) (args : Slice)
    (defaultValue : Int) : Option (Heap × Slice × Int × Option Error) :=
  let copied := appendSlice grow h Slice.nil (args.elems h)
  let threads := defaultValue
  match FindFlag (str "--threads") (copied.2.elems copied.1) with
  | none => none
  | some r =>
    if r.err ≠ none then
      some (copied.1, copied.2, threads, r.err)
    else
      match RemoveFlagFromCommandMem grow copied.1 copied.2 r.flagIndex r.flagValueIndex with
      | none => none
      | some removed =>
        if r.flagValue ≠ [] then
          let p := Atoi r.flagValue
          some (removed.1, removed.2, p.1, p.2.map CheckError)
        else
          some (removed.1, removed.2, threads, r.err)

/-! # Properties -/

/-! ## Strings and indexing -/

theorem str_eq : str "=" = [61] := by decide
theorem str_dash : str "-" = [45] := by decide
theorem str_dashdash : str "--" = [45, 45] := by decide

theorem HasPrefix_iff (s pre : GoString) : HasPrefix s pre = true ↔ pre <+: s := by
  unfold HasPrefix
  rw [List.prefix_iff_eq_take]
  constructor
  · intro h
    simp only [ge_iff_le, Bool.and_eq_true, decide_eq_true_eq, beq_iff_eq] at h
    exact h.2.symm
  · intro h
    have hl : pre.length ≤ s.length := by
      have := congrArg List.length h
      simp only [List.length_take] at this
      omega
    simp only [ge_iff_le, Bool.and_eq_true, decide_eq_true_eq, beq_iff_eq]
    exact ⟨hl, h.symm⟩

theorem HasPrefix_append (pre t : GoString) : HasPrefix (pre ++ t) pre = true :=
  (HasPrefix_iff _ _).2 (List.prefix_append pre t)

theorem TrimPrefix_append (pre t : GoString) : TrimPrefix (pre ++ t) pre = t := by
  unfold TrimPrefix
  simp [HasPrefix_append]

theorem TrimPrefix_self (pre : GoString) : TrimPrefix pre pre = [] := by
  simpa using TrimPrefix_append pre []

theorem HasPrefix_singleton (t : GoString) (c : UInt8) :
    HasPrefix t [c] = true ↔ ∃ v, t = c :: v := by
  rw [HasPrefix_iff]
  constructor
  · rintro ⟨v, rfl⟩
    exact ⟨v, rfl⟩
  · rintro ⟨v, rfl⟩
    exact ⟨v, rfl⟩

theorem index_natCast {α : Type} (a : List α) (k : Nat) : index a (k : Int) = a[k]? := by
  simp [index]

theorem index_natCast_succ {α : Type} (a : List α) (k : Nat) :
    index a ((k : Int) + 1) = a[k + 1]? := by
  have := index_natCast a (k + 1)
  simpa using this

/-! ## The value resolver `getFlagValueAndValueIndex` -/

theorem not_flag_cases (F tok : GoString) (h : ¬ (tok = F ∨ (F ++ str "=") <+: tok)) :
    HasPrefix tok F = false ∨
      ∃ t, tok = F ++ t ∧ t ≠ [] ∧ HasPrefix t (str "=") = false := by
  rw [str_eq] at h ⊢
  by_cases hp : HasPrefix tok F = true
  · right
    obtain ⟨t, rfl⟩ := (HasPrefix_iff _ _).1 hp
    refine ⟨t, rfl, ?_, ?_⟩
    · rintro rfl
      exact h (Or.inl (by simp))
    · cases hq : HasPrefix t [61]
      · rfl
      · obtain ⟨v, rfl⟩ := (HasPrefix_singleton _ _).1 hq
        exact absurd (Or.inr ⟨v, by simp⟩) h
  · left
    simpa using hp

theorem flag_cases (F tok : GoString) (h : tok = F ∨ (F ++ str "=") <+: tok) :
    tok = F ∨ tok = F ++ str "=" ∨ ∃ v, v ≠ [] ∧ tok = F ++ str "=" ++ v := by
  rcases h with h | ⟨v, rfl⟩
  · exact Or.inl h
  · cases v with
    | nil => exact Or.inr (Or.inl (by simp))
    | cons c v => exact Or.inr (Or.inr ⟨c :: v, by simp, rfl⟩)

theorem getFlag_inline (F : GoString) (args : List GoString) (i : Int) (v : GoString)
    (hv : v ≠ []) (hi : index args i = some (F ++ str "=" ++ v)) :
    getFlagValueAndValueIndex F args i = some (v, i, none) := by
  unfold getFlagValueAndValueIndex
  rw [hi]
  have hlen : 0 < v.length := List.length_pos.2 hv
  simp only [List.append_assoc, TrimPrefix_append, HasPrefix_append, if_true]
  simp [str_eq, hlen]

theorem getFlag_empty (F : GoString) (args : List GoString) (i : Int)
    (hi : index args i = some (F ++ str "=")) :
    getFlagValueAndValueIndex F args i = some ([], -1, some (Error.emptyValue F)) := by
  unfold getFlagValueAndValueIndex
  rw [hi]
  simp only [TrimPrefix_append]
  simp [str_eq, HasPrefix, CheckError]

theorem getFlag_other (F : GoString) (args : List GoString) (i : Int) (t : GoString)
    (ht : t ≠ []) (hq : HasPrefix t (str "=") = false) (hi : index args i = some (F ++ t)) :
    getFlagValueAndValueIndex F args i = some ([], -1, none) := by
  unfold getFlagValueAndValueIndex
  rw [hi]
  have hlen : 0 < t.length := List.length_pos.2 ht
  simp only [TrimPrefix_append, hq]
  simp [hlen]

theorem getFlag_last (F : GoString) (args : List GoString) (i : Int)
    (hi : index args i = some F) (hl : (args.length : Int) < i + 2) :
    getFlagValueAndValueIndex F args i = some ([], -1, some (Error.failedExtracting F)) := by
  unfold getFlagValueAndValueIndex
  rw [hi]
  simp only [TrimPrefix_self]
  simp [str_eq, HasPrefix, CheckError, hl]

theorem getFlag_next (F : GoString) (args : List GoString) (i : Int) (nxt : GoString)
    (hi : index args i = some F) (hn : index args (i + 1) = some nxt) :
    getFlagValueAndValueIndex F args i =
      if HasPrefix nxt (str "-") then some ([], -1, some (Error.failedExtracting F))
      else some (nxt, i + 1, none) := by
  have hl : ¬ ((args.length : Int) < i + 2) := by
    unfold index at hn
    split at hn
    · rename_i h0
      obtain ⟨hlt, -⟩ := List.getElem?_eq_some_iff.1 hn
      omega
    · simp at hn
  unfold getFlagValueAndValueIndex
  rw [hi]
  simp only [TrimPrefix_self]
  simp [str_eq, HasPrefix, CheckError, hl, hn]

/-! ## The scan of `FindFlag` -/

theorem exists_first {α : Type} (P : α → Prop) (l : List α) (h : ∃ x ∈ l, P x) :
    ∃ (i : Nat) (x : α), l[i]? = some x ∧ P x ∧ ∀ j < i, ∀ y, l[j]? = some y → ¬ P y := by
  induction l with
  | nil => simp at h
  | cons a l ih =>
    by_cases ha : P a
    · exact ⟨0, a, by simp, ha, by intro j hj; omega⟩
    · have h2 : ∃ x ∈ l, P x := by
        obtain ⟨x, hx, hp⟩ := h
        rcases List.mem_cons.1 hx with rfl | hx
        · exact absurd hp ha
        · exact ⟨x, hx, hp⟩
      obtain ⟨i, x, hix, hpx, hlt⟩ := ih h2
      refine ⟨i + 1, x, by simpa using hix, hpx, ?_⟩
      intro j hj y hy
      cases j with
      | zero =>
        simp at hy
        subst hy
        exact ha
      | succ j =>
        exact hlt j (by omega) y (by simpa using hy)

theorem findFlagLoop_skip (F : GoString) (args : List GoString) (tok : GoString)
    (rest : List GoString) (k : Nat) (fi : Int) (hi : args[k]? = some tok)
    (h : ¬ (tok = F ∨ (F ++ str "=") <+: tok)) :
    findFlagLoop F args (tok :: rest) (k : Int) ⟨fi, -1, [], none⟩ =
      findFlagLoop F args rest ((k : Int) + 1) ⟨fi, -1, [], none⟩ := by
  rcases not_flag_cases F tok h with hp | ⟨t, rfl, ht, hq⟩
  · rw [findFlagLoop]
    simp [hp]
  · rw [findFlagLoop]
    have hg := getFlag_other F args (k : Int) t ht hq (by rw [index_natCast]; exact hi)
    simp [HasPrefix_append, hg]

theorem findFlagLoop_drop (F : GoString) (args : List GoString) (fi : Int) (k : Nat)
    (hk : k ≤ args.length)
    (h : ∀ j < k, ∀ tok, args[j]? = some tok → ¬ (tok = F ∨ (F ++ str "=") <+: tok)) :
    findFlagLoop F args args 0 ⟨fi, -1, [], none⟩ =
      findFlagLoop F args (args.drop k) (k : Int) ⟨fi, -1, [], none⟩ := by
  induction k with
  | zero => simp
  | succ k ih =>
    have hlt : k < args.length := by omega
    rw [ih (by omega) (fun j hj => h j (by omega))]
    rw [List.drop_eq_getElem_cons hlt]
    rw [findFlagLoop_skip F args args[k] _ k fi (List.getElem?_eq_getElem hlt)
      (h k (by omega) _ (List.getElem?_eq_getElem hlt))]
    simp

/-- No token is the flag: the scan runs to the end and returns the initial results. -/
theorem findFlag_absent (F : GoString) (args : List GoString)
    (h : ∀ tok ∈ args, ¬ (tok = F ∨ (F ++ str "=") <+: tok)) :
    FindFlag F args = some ⟨-1, -1, [], none⟩ := by
  unfold FindFlag
  rw [findFlagLoop_drop F args (-1) args.length (le_refl _)
    (fun j _ tok hj => h tok (List.getElem?_mem hj))]
  simp [findFlagLoop]

/-- The result of `FindFlag` is decided at the leftmost token that is the flag. -/
theorem findFlag_first (F : GoString) (args : List GoString) (i : Nat) (tok : GoString)
    (hi : args[i]? = some tok) (hm : tok = F ∨ (F ++ str "=") <+: tok)
    (hfirst : ∀ j < i, ∀ t, args[j]? = some t → ¬ (t = F ∨ (F ++ str "=") <+: t)) :
    FindFlag F args =
      if tok = F then
        match args[i + 1]? with
        | none => some ⟨-1, -1, [], some (Error.failedExtracting F)⟩
        | some nxt =>
          if HasPrefix nxt (str "-") then some ⟨-1, -1, [], some (Error.failedExtracting F)⟩
          else some ⟨i, (i : Int) + 1, nxt, none⟩
      else if tok = F ++ str "=" then
        some ⟨-1, -1, [], some (Error.emptyValue F)⟩
      else
        some ⟨i, i, tok.drop (F.length + 1), none⟩ := by
  obtain ⟨hlt, hget⟩ := List.getElem?_eq_some_iff.1 hi
  unfold FindFlag
  rw [findFlagLoop_drop F args (-1) i (by omega) hfirst, List.drop_eq_getElem_cons hlt, hget]
  have hidx : index args (i : Int) = some tok := by rw [index_natCast]; exact hi
  have hpre : HasPrefix tok F = true := by
    rw [HasPrefix_iff]
    rcases hm with rfl | hm
    · exact List.prefix_refl _
    · exact (List.prefix_append F _).trans hm
  rw [findFlagLoop]
  simp only [hpre, Bool.not_true, Bool.false_eq_true, if_false]
  rcases flag_cases F tok hm with h0 | h0 | ⟨v, hv, h0⟩ <;> rw [h0] at hidx ⊢
  · simp only [if_true]
    cases hn : args[i + 1]? with
    | none =>
      have hl : (args.length : Int) < (i : Int) + 2 := by
        have := List.getElem?_eq_none_iff.1 hn
        omega
      rw [getFlag_last F args i hidx hl]
      simp
    | some nxt =>
      rw [getFlag_next F args i nxt hidx (by rw [index_natCast_succ]; exact hn)]
      by_cases hd : HasPrefix nxt (str "-") = true
      · simp [hd]
      · simp [hd]
        omega
  · rw [getFlag_empty F args i hidx]
    simp [str_eq]
  · rw [getFlag_inline F args i v hv hidx]
    have h1 : F ++ str "=" ++ v ≠ F := by
      intro h
      have := congrArg List.length h
      simp [str_eq] at this
    have h2 : F ++ str "=" ++ v ≠ F ++ str "=" := by
      intro h
      have := congrArg List.length h
      simp [str_eq] at this
      exact hv this
    simp only [h1, h2, if_false]
    have h3 : (F ++ str "=" ++ v).drop (F.length + 1) = v := by
      simp [str_eq]
    rw [h3]
    have : ¬ ((i : Int) = -1) := by omega
    simp [this]

/-! ## `FindFlag`: not found, inline form, split form -/

/-- C1: when no token of `args` equals the flag name `F` and none begins with `F` followed
by "=", `FindFlag F args` returns flagIndex = -1, flagValueIndex = -1, flagValue = "" and a
nil error (tokens that only share `F` as a prefix of a longer name are allowed). -/
theorem FindFlag_not_found (F : GoString) (args : List GoString)
    (h : ∀ tok ∈ args, tok ≠ F ∧ ¬ (F ++ str "=") <+: tok) :
    FindFlag F args =
      some { flagIndex := -1, flagValueIndex := -1, flagValue := [], err := none } :=
  findFlag_absent F args (fun tok ht hm => hm.elim (h tok ht).1 (h tok ht).2)

theorem FindFlag_not_found_witness :
    (∀ tok ∈ [str "--server-id-extra=x"],
        tok ≠ str "--server-id" ∧ ¬ (str "--server-id" ++ str "=") <+: tok) ∧
      FindFlag (str "--server-id") [str "--server-id-extra=x"] =
        some { flagIndex := -1, flagValueIndex := -1, flagValue := [], err := none } :=
  ⟨by decide, FindFlag_not_found (str "--server-id") [str "--server-id-extra=x"] (by decide)⟩

/-- C2 (inline form): when `args[i] = F ++ "=" ++ v` with `v` non-empty and no token before
index `i` equals `F` or begins with `F ++ "="`, `FindFlag F args` returns
flagIndex = i, flagValueIndex = i, flagValue = v and a nil error. -/
theorem FindFlag_inline (F v : GoString) (args : List GoString) (i : Nat)
    (hv : v ≠ []) (hi : args[i]? = some (F ++ str "=" ++ v))
    (hfirst : ∀ j < i, ∀ t, args[j]? = some t → t ≠ F ∧ ¬ (F ++ str "=") <+: t) :
    FindFlag F args =
      some { flagIndex := i, flagValueIndex := i, flagValue := v, err := none } := by
  rw [findFlag_first F args i _ hi (Or.inr ⟨v, rfl⟩)
    (fun j hj t ht hm => hm.elim (hfirst j hj t ht).1 (hfirst j hj t ht).2)]
  have h1 : F ++ str "=" ++ v ≠ F := by
    intro h
    have := congrArg List.length h
    simp [str_eq] at this
  have h2 : F ++ str "=" ++ v ≠ F ++ str "=" := by
    intro h
    have := congrArg List.length h
    simp [str_eq] at this
    exact hv this
  rw [if_neg h1, if_neg h2]
  simp [str_eq]

theorem FindFlag_inline_witness :
    FindFlag (str "--threads") [str "--threads=4"] =
        some { flagIndex := 0, flagValueIndex := 0, flagValue := str "4", err := none } ∧
      FindFlag (str "--threads") [str "--threads-max=9", str "--threads=4"] =
        some { flagIndex := 1, flagValueIndex := 1, flagValue := str "4", err := none } :=
  ⟨FindFlag_inline (str "--threads") (str "4") [str "--threads=4"] 0 (by decide) (by decide)
      (by intro j hj; omega),
    FindFlag_inline (str "--threads") (str "4") [str "--threads-max=9", str "--threads=4"] 1
      (by decide) (by decide)
      (by
        intro j hj t ht
        obtain rfl : j = 0 := by omega
        obtain rfl : str "--threads-max=9" = t := by simpa using ht
        decide)⟩

/-- C3 (split form): when `args[i] = F`, index `i+1` exists, `args[i+1]` does not begin with
"-", and no token before index `i` equals `F` or begins with `F ++ "="`, `FindFlag F args`
returns flagIndex = i, flagValueIndex = i+1, flagValue = args[i+1] and a nil error. -/
theorem FindFlag_split (F nxt : GoString) (args : List GoString) (i : Nat)
    (hi : args[i]? = some F) (hn : args[i + 1]? = some nxt) (hd : ¬ (str "-") <+: nxt)
    (hfirst : ∀ j < i, ∀ t, args[j]? = some t → t ≠ F ∧ ¬ (F ++ str "=") <+: t) :
    FindFlag F args =
      some { flagIndex := i, flagValueIndex := (i : Int) + 1, flagValue := nxt, err := none } := by
  rw [findFlag_first F args i _ hi (Or.inl rfl)
    (fun j hj t ht hm => hm.elim (hfirst j hj t ht).1 (hfirst j hj t ht).2)]
  have hd2 : ¬ HasPrefix nxt (str "-") = true := fun h => hd ((HasPrefix_iff _ _).1 h)
  simp [hn, hd2]

theorem FindFlag_split_witness :
    FindFlag (str "--threads") [str "--threads", str "4"] =
        some { flagIndex := 0, flagValueIndex := 1, flagValue := str "4", err := none } ∧
      FindFlag (str "--threads") [str "build", str "--threads", str "4"] =
        some { flagIndex := 1, flagValueIndex := 2, flagValue := str "4", err := none } :=
  ⟨FindFlag_split (str "--threads") (str "4") [str "--threads", str "4"] 0 (by decide)
      (by decide) (by decide) (by intro j hj; omega),
    FindFlag_split (str "--threads") (str "4") [str "build", str "--threads", str "4"] 1
      (by decide) (by decide) (by decide)
      (by
        intro j hj t ht
        obtain rfl : j = 0 := by omega
        obtain rfl : str "build" = t := by simpa using ht
        decide)⟩

/-! ## `FindFlag`: errors -/

theorem findFlag_cases (F : GoString) (args : List GoString) :
    ((∀ tok ∈ args, ¬ (tok = F ∨ (F ++ str "=") <+: tok)) ∧
        FindFlag F args = some ⟨-1, -1, [], none⟩) ∨
    ∃ (i : Nat) (tok : GoString), args[i]? = some tok ∧ (tok = F ∨ (F ++ str "=") <+: tok) ∧
      (∀ j < i, ∀ t, args[j]? = some t → ¬ (t = F ∨ (F ++ str "=") <+: t)) ∧
      FindFlag F args =
        if tok = F then
          match args[i + 1]? with
          | none => some ⟨-1, -1, [], some (Error.failedExtracting F)⟩
          | some nxt =>
            if HasPrefix nxt (str "-") then some ⟨-1, -1, [], some (Error.failedExtracting F)⟩
            else some ⟨i, (i : Int) + 1, nxt, none⟩
        else if tok = F ++ str "=" then
          some ⟨-1, -1, [], some (Error.emptyValue F)⟩
        else
          some ⟨i, i, tok.drop (F.length + 1), none⟩ := by
  by_cases hex : ∃ tok ∈ args, tok = F ∨ (F ++ str "=") <+: tok
  · obtain ⟨i, tok, hi, hm, hfirst⟩ := exists_first _ args hex
    exact Or.inr ⟨i, tok, hi, hm, hfirst, findFlag_first F args i tok hi hm hfirst⟩
  · have h : ∀ tok ∈ args, ¬ (tok = F ∨ (F ++ str "=") <+: tok) :=
      fun tok ht hm => hex ⟨tok, ht, hm⟩
    exact Or.inl ⟨h, findFlag_absent F args h⟩

theorem first_unique {α : Type} (P : α → Prop) (l : List α) (i i' : Nat) (x x' : α)
    (hi : l[i]? = some x) (hp : P x) (hf : ∀ j < i, ∀ y, l[j]? = some y → ¬ P y)
    (hi' : l[i']? = some x') (hp' : P x') (hf' : ∀ j < i', ∀ y, l[j]? = some y → ¬ P y) :
    i = i' ∧ x = x' := by
  have h1 : ¬ i < i' := fun h => hf' i h x hi hp
  have h2 : ¬ i' < i := fun h => hf i' h x' hi' hp'
  have : i = i' := by omega
  subst this
  rw [hi] at hi'
  exact ⟨rfl, Option.some.inj hi'⟩

theorem append_ne_self (F v : GoString) (hv : v ≠ []) : F ++ v ≠ F := by
  intro h
  have := congrArg List.length h
  simp at this
  exact hv this

theorem append_eq_ne (F v : GoString) (hv : v ≠ []) : F ++ str "=" ++ v ≠ F ++ str "=" :=
  append_ne_self (F ++ str "=") v hv

theorem append_eq_ne_self (F v : GoString) : F ++ str "=" ++ v ≠ F := by
  rw [List.append_assoc]
  exact append_ne_self F _ (by simp [str_eq])

/-- C4: `FindFlag F args` always returns, and its error is non-nil exactly when there is a
least index `i` whose token equals `F` or begins with `F ++ "="` and at that index either
the token is `F ++ "="` (empty explicit value), or the token is `F` and `i` is the last
index, or the token is `F` and the next token begins with "-".  A later well-formed
occurrence of the flag does not change this. -/
theorem FindFlag_error_iff (F : GoString) (args : List GoString) :
    ∃ r, FindFlag F args = some r ∧
      (r.err ≠ none ↔
        ∃ (i : Nat) (tok : GoString), args[i]? = some tok ∧
          (tok = F ∨ (F ++ str "=") <+: tok) ∧
          (∀ j < i, ∀ t, args[j]? = some t → ¬ (t = F ∨ (F ++ str "=") <+: t)) ∧
          (tok = F ++ str "=" ∨ (tok = F ∧ i + 1 = args.length) ∨
            (tok = F ∧ ∃ nxt, args[i + 1]? = some nxt ∧ (str "-") <+: nxt))) := by
  rcases findFlag_cases F args with ⟨habs, hr⟩ | ⟨i, tok, hi, hm, hfirst, hr⟩
  · refine ⟨_, hr, ?_⟩
    constructor
    · intro h
      exact absurd rfl h
    · rintro ⟨i, tok, hi, hm, -, -⟩
      exact absurd hm (habs tok (List.getElem?_mem hi))
  · -- it suffices to decide the error at the leftmost occurrence
    suffices hs : ∃ r, FindFlag F args = some r ∧
        (r.err ≠ none ↔ (tok = F ++ str "=" ∨ (tok = F ∧ i + 1 = args.length) ∨
            (tok = F ∧ ∃ nxt, args[i + 1]? = some nxt ∧ (str "-") <+: nxt))) by
      obtain ⟨r, hr', hiff⟩ := hs
      refine ⟨r, hr', hiff.trans ?_⟩
      constructor
      · intro hq
        exact ⟨i, tok, hi, hm, hfirst, hq⟩
      · rintro ⟨i', tok', hi', hm', hfirst', hq⟩
        obtain ⟨rfl, rfl⟩ := first_unique _ args i i' tok tok' hi hm hfirst hi' hm' hfirst'
        exact hq
    obtain ⟨hlt, -⟩ := List.getElem?_eq_some_iff.1 hi
    rcases flag_cases F tok hm with h0 | h0 | ⟨v, hv, h0⟩
    · -- the token is the bare flag
      rw [if_pos h0] at hr
      have hne : tok ≠ F ++ str "=" := by
        rw [h0]
        exact (append_ne_self F _ (by simp [str_eq])).symm
      cases hn : args[i + 1]? with
      | none =>
        rw [hn] at hr
        refine ⟨_, hr, ?_⟩
        have hlen : i + 1 = args.length := by
          have := List.getElem?_eq_none_iff.1 hn
          omega
        simp [h0, hlen]
      | some nxt =>
        rw [hn] at hr
        dsimp only at hr
        have hlen : i + 1 ≠ args.length := by
          obtain ⟨h1, -⟩ := List.getElem?_eq_some_iff.1 hn
          omega
        by_cases hd : HasPrefix nxt (str "-") = true
        · rw [if_pos hd] at hr
          refine ⟨_, hr, ?_⟩
          have hd2 := (HasPrefix_iff _ _).1 hd
          simp [h0, hd2]
        · rw [if_neg hd] at hr
          refine ⟨_, hr, ?_⟩
          have hd2 : ¬ (str "-") <+: nxt := fun h => hd ((HasPrefix_iff _ _).2 h)
          simp [hne, hlen, hd2]
    · -- empty explicit value
      have hne : tok ≠ F := by
        rw [h0]
        exact append_ne_self F _ (by simp [str_eq])
      rw [if_neg hne, if_pos h0] at hr
      exact ⟨_, hr, by simp [h0]⟩
    · -- inline value
      have hne : tok ≠ F := h0 ▸ append_eq_ne_self F v
      have hne2 : tok ≠ F ++ str "=" := h0 ▸ append_eq_ne F v hv
      rw [if_neg hne, if_neg hne2] at hr
      exact ⟨_, hr, by simp [hne, hne2]⟩

theorem FindFlag_error_iff_witness :
    (∃ r, FindFlag (str "--threads") [str "--threads"] = some r ∧ r.err ≠ none) ∧
      (∃ r, FindFlag (str "--threads") [str "--threads", str "--other"] = some r ∧
        r.err ≠ none) ∧
      (∃ r, FindFlag (str "--threads") [str "--threads="] = some r ∧ r.err ≠ none) ∧
      (∃ r, FindFlag (str "--threads") [str "--threads", str "--other", str "--threads=4"] =
        some r ∧ r.err ≠ none) := by
  refine ⟨?_, ?_, ?_, ?_⟩
  · obtain ⟨r, hr, hiff⟩ := FindFlag_error_iff (str "--threads") [str "--threads"]
    exact ⟨r, hr, hiff.2 ⟨0, str "--threads", by decide, Or.inl rfl, by intro j hj; omega,
      Or.inr (Or.inl ⟨rfl, by decide⟩)⟩⟩
  · obtain ⟨r, hr, hiff⟩ :=
      FindFlag_error_iff (str "--threads") [str "--threads", str "--other"]
    exact ⟨r, hr, hiff.2 ⟨0, str "--threads", by decide, Or.inl rfl, by intro j hj; omega,
      Or.inr (Or.inr ⟨rfl, str "--other", by decide, by decide⟩)⟩⟩
  · obtain ⟨r, hr, hiff⟩ := FindFlag_error_iff (str "--threads") [str "--threads="]
    exact ⟨r, hr, hiff.2 ⟨0, str "--threads=", by decide, Or.inr (by decide),
      by intro j hj; omega, Or.inl (by decide)⟩⟩
  · obtain ⟨r, hr, hiff⟩ :=
      FindFlag_error_iff (str "--threads") [str "--threads", str "--other", str "--threads=4"]
    exact ⟨r, hr, hiff.2 ⟨0, str "--threads", by decide, Or.inl rfl, by intro j hj; omega,
      Or.inr (Or.inr ⟨rfl, str "--other", by decide, by decide⟩)⟩⟩

/-! ## `FindFlag`: soundness of a found flag; `RemoveFlagFromCommand` -/

/-- A found flag sits at an index of the list, in the inline or in the split form. -/
theorem findFlag_found (F : GoString) (args : List GoString) (r : FlagResult)
    (h : FindFlag F args = some r) (he : r.err = none) (hi : r.flagIndex ≠ -1) :
    ∃ i : Nat, r.flagIndex = i ∧ i < args.length ∧
      ((r.flagValueIndex = i ∧ args[i]? = some (F ++ str "=" ++ r.flagValue)) ∨
        (r.flagValueIndex = (i : Int) + 1 ∧ i + 1 < args.length ∧ args[i]? = some F ∧
          args[i + 1]? = some r.flagValue)) := by
  rcases findFlag_cases F args with ⟨-, hr⟩ | ⟨i, tok, hget, hm, -, hr⟩
  · rw [hr] at h
    cases h
    exact absurd rfl hi
  · obtain ⟨hlt, -⟩ := List.getElem?_eq_some_iff.1 hget
    rw [hr] at h
    rcases flag_cases F tok hm with h0 | h0 | ⟨v, hv, h0⟩
    · rw [if_pos h0] at h
      cases hn : args[i + 1]? with
      | none =>
        rw [hn] at h
        cases h
        exact absurd rfl hi
      | some nxt =>
        rw [hn] at h
        dsimp only at h
        obtain ⟨h1, -⟩ := List.getElem?_eq_some_iff.1 hn
        by_cases hd : HasPrefix nxt (str "-") = true
        · rw [if_pos hd] at h
          cases h
          exact absurd rfl hi
        · rw [if_neg hd] at h
          cases h
          exact ⟨i, rfl, hlt, Or.inr ⟨rfl, h1, h0 ▸ hget, hn⟩⟩
    · have hne : tok ≠ F := by
        rw [h0]
        exact append_ne_self F _ (by simp [str_eq])
      rw [if_neg hne, if_pos h0] at h
      cases h
      exact absurd rfl hi
    · have hne : tok ≠ F := h0 ▸ append_eq_ne_self F v
      have hne2 : tok ≠ F ++ str "=" := h0 ▸ append_eq_ne F v hv
      rw [if_neg hne, if_neg hne2] at h
      cases h
      refine ⟨i, rfl, hlt, Or.inl ⟨rfl, ?_⟩⟩
      rw [hget, h0]
      simp [str_eq]

theorem removeFlag_span (args : List GoString) (i j : Nat) (hj : j < args.length)
    (hij : i ≤ j) :
    RemoveFlagFromCommand args (i : Int) (j : Int) =
      some (args.take i ++ args.drop (j + 1)) := by
  unfold RemoveFlagFromCommand sliceTo sliceFrom
  have h1 : ¬ ((i : Int) = -1) := by omega
  have h2 : (0 : Int) ≤ i ∧ (i : Int) ≤ (args.length : Int) := by omega
  have h3 : (0 : Int) ≤ (j : Int) + 1 ∧ (j : Int) + 1 ≤ (args.length : Int) := by omega
  have h4 : ((j : Int) + 1).toNat = j + 1 := by omega
  simp only [ne_eq, h1, not_false_eq_true, if_true, h2, h3, and_self, Int.toNat_ofNat, h4]

theorem removeFlag_sentinel (args : List GoString) (j : Int) :
    RemoveFlagFromCommand args (-1) j = some args := by
  simp [RemoveFlagFromCommand]

theorem length_take_append_drop {α : Type} (l : List α) (i j : Nat) (hj : j < l.length)
    (hij : i ≤ j) : (l.take i ++ l.drop (j + 1)).length + (j - i + 1) = l.length := by
  simp only [List.length_append, List.length_take, List.length_drop]
  omega

theorem take_append_drop_sublist {α : Type} (l : List α) (i j : Nat) (hij : i ≤ j) :
    (l.take i ++ l.drop (j + 1)).Sublist l := by
  have h : (l.take i ++ l.drop (j + 1)).Sublist (l.take i ++ l.drop i) :=
    List.Sublist.append (List.Sublist.refl _) (List.drop_sublist_drop_left l (by omega))
  simpa using h

/-- C5: a result of `FindFlag` with nil error and flagIndex `i` other than -1 satisfies
`0 <= i < len(args)`, its flagValueIndex is `i` or `i+1` and is below `len(args)`, and
either flagValueIndex = i and `args[i] = F ++ "=" ++ flagValue`, or flagValueIndex = i+1,
`args[i] = F` and `args[i+1] = flagValue`; `RemoveFlagFromCommand` on that span stays
inside the list (it does not panic). -/
theorem FindFlag_sound (F : GoString) (args : List GoString) (r : FlagResult)
    (h : FindFlag F args = some r) (he : r.err = none) (hi : r.flagIndex ≠ -1) :
    0 ≤ r.flagIndex ∧ r.flagIndex < (args.length : Int) ∧
      (r.flagValueIndex = r.flagIndex ∨ r.flagValueIndex = r.flagIndex + 1) ∧
      r.flagValueIndex < (args.length : Int) ∧
      ((r.flagValueIndex = r.flagIndex ∧
          index args r.flagIndex = some (F ++ str "=" ++ r.flagValue)) ∨
        (r.flagValueIndex = r.flagIndex + 1 ∧ index args r.flagIndex = some F ∧
          index args (r.flagIndex + 1) = some r.flagValue)) ∧
      (RemoveFlagFromCommand args r.flagIndex r.flagValueIndex).isSome = true := by
  obtain ⟨i, hfi, hlt, hform⟩ := findFlag_found F args r h he hi
  rw [hfi]
  rcases hform with ⟨hv, hget⟩ | ⟨hv, hlt2, hget, hget2⟩
  · rw [hv]
    refine ⟨by omega, by omega, Or.inl rfl, by omega, Or.inl ⟨rfl, ?_⟩, ?_⟩
    · rw [index_natCast]
      exact hget
    · rw [removeFlag_span args i i hlt (le_refl _)]
      rfl
  · rw [hv]
    refine ⟨by omega, by omega, Or.inr rfl, by omega, Or.inr ⟨rfl, ?_, ?_⟩, ?_⟩
    · rw [index_natCast]
      exact hget
    · rw [index_natCast_succ]
      exact hget2
    · have hc : ((i : Int) + 1) = ((i + 1 : Nat) : Int) := by push_cast; rfl
      rw [hc, removeFlag_span args i (i + 1) hlt2 (by omega)]
      rfl

theorem FindFlag_sound_witness :
    ∃ r, FindFlag (str "--tag") [str "scan", str "--tag", str "v1", str "img"] = some r ∧
      r.err = none ∧ r.flagIndex ≠ -1 ∧ r.flagIndex = 1 ∧ r.flagValueIndex = 2 ∧
      index [str "scan", str "--tag", str "v1", str "img"] (r.flagIndex + 1) =
        some r.flagValue ∧
      r.flagValueIndex < 4 :=
  ⟨⟨1, 2, str "v1", none⟩, by decide, rfl, by decide, rfl, rfl, by decide,
    (FindFlag_sound (str "--tag") [str "scan", str "--tag", str "v1", str "img"]
      ⟨1, 2, str "v1", none⟩ (by decide) rfl (by decide)).2.2.2.1⟩

/-! ## Removal and string extraction -/

/-- C6: for `0 <= flagIndex <= flagValueIndex < len(args)`, `RemoveFlagFromCommand` leaves
`args` equal to its first `flagIndex` tokens followed by its tokens from index
`flagValueIndex + 1` on: exactly `flagValueIndex - flagIndex + 1` tokens are deleted and the
others keep their relative order.  For `flagIndex = -1` (any `flagValueIndex`) `args` is
left unchanged. -/
theorem RemoveFlagFromCommand_spec (args : List GoString) (flagIndex flagValueIndex : Int) :
    (0 ≤ flagIndex ∧ flagIndex ≤ flagValueIndex ∧ flagValueIndex < (args.length : Int) →
      RemoveFlagFromCommand args flagIndex flagValueIndex =
          some (args.take flagIndex.toNat ++ args.drop (flagValueIndex.toNat + 1)) ∧
        (((args.take flagIndex.toNat ++ args.drop (flagValueIndex.toNat + 1)).length : Int) =
          (args.length : Int) - (flagValueIndex - flagIndex + 1)) ∧
        (args.take flagIndex.toNat ++ args.drop (flagValueIndex.toNat + 1)).Sublist args) ∧
    RemoveFlagFromCommand args (-1) flagValueIndex = some args := by
  refine ⟨?_, removeFlag_sentinel args flagValueIndex⟩
  rintro ⟨h0, h1, h2⟩
  obtain ⟨i, rfl⟩ := Int.eq_ofNat_of_zero_le h0
  obtain ⟨j, rfl⟩ := Int.eq_ofNat_of_zero_le (le_trans h0 h1)
  have hij : i ≤ j := by omega
  have hj : j < args.length := by omega
  refine ⟨removeFlag_span args i j hj hij, ?_, ?_⟩
  · have := length_take_append_drop args i j hj hij
    simp only [Int.toNat_ofNat]
    omega
  · exact take_append_drop_sublist args i j hij

theorem RemoveFlagFromCommand_spec_witness :
    (0 ≤ (1 : Int) ∧ (1 : Int) ≤ 2 ∧
        (2 : Int) < (([str "a", str "--tag", str "v", str "b"] : List GoString).length : Int)) ∧
      RemoveFlagFromCommand [str "a", str "--tag", str "v", str "b"] 1 2 =
        some [str "a", str "b"] :=
  ⟨by decide,
    ((RemoveFlagFromCommand_spec [str "a", str "--tag", str "v", str "b"] 1 2).1
      (by decide)).1⟩

/-- C7: when `FindFlag("--" ++ n, args)` finds the flag with nil error at flagIndex `i`,
flagValueIndex `j` and value `v`, `ExtractStringOptionFromArgs(args, n)` returns nil error,
the value `v`, and `cleanArgs` equal to `args` with exactly the tokens at indices `i..j`
deleted: one token less when the value was inline (`j = i`), two less when it was the next
token (`j = i+1`); the remaining tokens, later occurrences of the flag included, keep their
order. -/
theorem ExtractStringOptionFromArgs_found (args : List GoString) (n : GoString)
    (r : FlagResult) (h : FindFlag (str "--" ++ n) args = some r) (he : r.err = none)
    (hi : r.flagIndex ≠ -1) :
    ExtractStringOptionFromArgs args n =
        some (args.take r.flagIndex.toNat ++ args.drop (r.flagValueIndex.toNat + 1),
          r.flagValue, none) ∧
      (r.flagValueIndex = r.flagIndex ∨ r.flagValueIndex = r.flagIndex + 1) ∧
      (r.flagValueIndex = r.flagIndex →
        (args.take r.flagIndex.toNat ++ args.drop (r.flagValueIndex.toNat + 1)).length + 1 =
          args.length) ∧
      (r.flagValueIndex = r.flagIndex + 1 →
        (args.take r.flagIndex.toNat ++ args.drop (r.flagValueIndex.toNat + 1)).length + 2 =
          args.length) ∧
      (args.take r.flagIndex.toNat ++ args.drop (r.flagValueIndex.toNat + 1)).Sublist args := by
  obtain ⟨i, hfi, hlt, hform⟩ := findFlag_found _ args r h he hi
  have hex : ∃ j : Nat, r.flagValueIndex = j ∧ i ≤ j ∧ j < args.length ∧ (j = i ∨ j = i + 1) := by
    rcases hform with ⟨hv, -⟩ | ⟨hv, hlt2, -, -⟩
    · exact ⟨i, hv, le_refl _, hlt, Or.inl rfl⟩
    · exact ⟨i + 1, by rw [hv]; push_cast; rfl, by omega, hlt2, Or.inr rfl⟩
  obtain ⟨j, hfv, hij, hj, hcase⟩ := hex
  have hlen := length_take_append_drop args i j hj hij
  refine ⟨?_, ?_, ?_, ?_, ?_⟩
  · unfold ExtractStringOptionFromArgs copyArgs
    simp only [List.nil_append, h, he, ne_eq, not_true_eq_false, if_false]
    rw [hfi, hfv, removeFlag_span args i j hj hij]
    simp
  · rw [hfi, hfv]
    omega
  · intro heq
    rw [hfi, hfv] at heq ⊢
    simp only [Int.toNat_ofNat]
    omega
  · intro heq
    rw [hfi, hfv] at heq ⊢
    simp only [Int.toNat_ofNat]
    omega
  · rw [hfi, hfv]
    exact take_append_drop_sublist args i j hij

theorem ExtractStringOptionFromArgs_found_witness :
    FindFlag (str "--" ++ str "tag") [str "a", str "--tag", str "v", str "--tag=w"] =
        some ⟨1, 2, str "v", none⟩ ∧
      ExtractStringOptionFromArgs [str "a", str "--tag", str "v", str "--tag=w"] (str "tag") =
        some ([str "a", str "--tag=w"], str "v", none) :=
  ⟨by decide,
    (ExtractStringOptionFromArgs_found [str "a", str "--tag", str "v", str "--tag=w"]
      (str "tag") ⟨1, 2, str "v", none⟩ (by decide) rfl (by decide)).1⟩

/-! ## The scan of `FindBooleanFlag`; absent options -/

theorem findBooleanFlagLoop_skip (F tok : GoString) (rest : List GoString) (k : Int)
    (h : ¬ (tok = F ∨ (F ++ str "=") <+: tok)) :
    findBooleanFlagLoop F (tok :: rest) k = findBooleanFlagLoop F rest (k + 1) := by
  rcases not_flag_cases F tok h with hp | ⟨t, rfl, ht, hq⟩
  · rw [findBooleanFlagLoop]
    simp [hp]
  · rw [findBooleanFlagLoop]
    have hlen : t.length ≠ 0 := fun h0 => ht (List.length_eq_zero.1 h0)
    simp only [HasPrefix_append, if_true, TrimPrefix_append, hlen, if_false, hq,
      Bool.false_eq_true]

theorem findBooleanFlagLoop_drop (F : GoString) (args : List GoString) (k : Nat)
    (hk : k ≤ args.length)
    (h : ∀ j < k, ∀ tok, args[j]? = some tok → ¬ (tok = F ∨ (F ++ str "=") <+: tok)) :
    findBooleanFlagLoop F args 0 = findBooleanFlagLoop F (args.drop k) (k : Int) := by
  induction k with
  | zero => simp
  | succ k ih =>
    have hlt : k < args.length := by omega
    rw [ih (by omega) (fun j hj => h j (by omega))]
    rw [List.drop_eq_getElem_cons hlt]
    rw [findBooleanFlagLoop_skip F args[k] _ k
      (h k (by omega) _ (List.getElem?_eq_getElem hlt))]
    simp

theorem findBooleanFlag_absent (F : GoString) (args : List GoString)
    (h : ∀ tok ∈ args, ¬ (tok = F ∨ (F ++ str "=") <+: tok)) :
    FindBooleanFlag F args = ⟨-1, false, none⟩ := by
  unfold FindBooleanFlag
  rw [findBooleanFlagLoop_drop F args args.length (le_refl _)
    (fun j _ tok hj => h tok (List.getElem?_mem hj))]
  simp [findBooleanFlagLoop]

/-- The result of `FindBooleanFlag` is decided at the leftmost token that is the flag. -/
theorem findBooleanFlag_first (F : GoString) (args : List GoString) (i : Nat)
    (tok : GoString) (hi : args[i]? = some tok) (hm : tok = F ∨ (F ++ str "=") <+: tok)
    (hfirst : ∀ j < i, ∀ t, args[j]? = some t → ¬ (t = F ∨ (F ++ str "=") <+: t)) :
    FindBooleanFlag F args =
      if tok = F then ⟨i, true, none⟩
      else ⟨i, (ParseBool (tok.drop (F.length + 1))).1,
        (ParseBool (tok.drop (F.length + 1))).2⟩ := by
  obtain ⟨hlt, hget⟩ := List.getElem?_eq_some_iff.1 hi
  unfold FindBooleanFlag
  rw [findBooleanFlagLoop_drop F args i (by omega) hfirst, List.drop_eq_getElem_cons hlt, hget]
  rw [findBooleanFlagLoop]
  rcases hm with h0 | ⟨v, h0⟩
  · rw [h0]
    simp [HasPrefix_append, HasPrefix_iff, TrimPrefix_self]
  · have hne : tok ≠ F := by
      rw [← h0]
      exact append_eq_ne_self F v
    rw [if_neg hne, ← h0]
    have h1 : TrimPrefix (F ++ str "=" ++ v) F = str "=" ++ v := by
      rw [List.append_assoc, TrimPrefix_append]
    have h2 : HasPrefix (F ++ str "=" ++ v) F = true := by
      rw [List.append_assoc]
      exact HasPrefix_append _ _
    simp only [h1, h2, if_true, HasPrefix_append]
    simp [str_eq]

theorem findBooleanFlag_cases (F : GoString) (args : List GoString) :
    ((∀ tok ∈ args, ¬ (tok = F ∨ (F ++ str "=") <+: tok)) ∧
        FindBooleanFlag F args = ⟨-1, false, none⟩) ∨
    ∃ (i : Nat) (tok : GoString), args[i]? = some tok ∧ (tok = F ∨ (F ++ str "=") <+: tok) ∧
      (∀ j < i, ∀ t, args[j]? = some t → ¬ (t = F ∨ (F ++ str "=") <+: t)) ∧
      FindBooleanFlag F args =
        if tok = F then ⟨i, true, none⟩
        else ⟨i, (ParseBool (tok.drop (F.length + 1))).1,
          (ParseBool (tok.drop (F.length + 1))).2⟩ := by
  by_cases hex : ∃ tok ∈ args, tok = F ∨ (F ++ str "=") <+: tok
  · obtain ⟨i, tok, hi, hm, hfirst⟩ := exists_first _ args hex
    exact Or.inr ⟨i, tok, hi, hm, hfirst, findBooleanFlag_first F args i tok hi hm hfirst⟩
  · have h : ∀ tok ∈ args, ¬ (tok = F ∨ (F ++ str "=") <+: tok) :=
      fun tok ht hm => hex ⟨tok, ht, hm⟩
    exact Or.inl ⟨h, findBooleanFlag_absent F args h⟩

/-- C8 (absent option): when no token of `args` equals `"--" ++ n` or begins with
`"--" ++ n ++ "="`, `ExtractStringOptionFromArgs(args, n)` returns `(args, "", nil)` and
`ExtractBoolFlagFromArgs(args, n)` returns `(args, false, nil)`; and when no token equals
"--threads" or begins with "--threads=", `ExtractThreadsFromArgs(args, d)` returns
`(args, d, nil)` for every default `d`. -/
theorem Extract_absent (args : List GoString) (n : GoString) (d : Int) :
    ((∀ tok ∈ args, tok ≠ str "--" ++ n ∧ ¬ (str "--" ++ n ++ str "=") <+: tok) →
      ExtractStringOptionFromArgs args n = some (args, [], none) ∧
        ExtractBoolFlagFromArgs args n = some (args, false, none)) ∧
    ((∀ tok ∈ args, tok ≠ str "--threads" ∧ ¬ (str "--threads" ++ str "=") <+: tok) →
      ExtractThreadsFromArgs args d = some (args, d, none)) := by
  constructor
  · intro h
    have h' : ∀ tok ∈ args, ¬ (tok = str "--" ++ n ∨ (str "--" ++ n ++ str "=") <+: tok) :=
      fun tok ht hm => hm.elim (h tok ht).1 (h tok ht).2
    constructor
    · unfold ExtractStringOptionFromArgs copyArgs
      simp [findFlag_absent _ args h', removeFlag_sentinel]
    · unfold ExtractBoolFlagFromArgs extractBoolOptionFromArgs copyArgs
      simp [findBooleanFlag_absent _ args h', removeFlag_sentinel]
  · intro h
    have h' : ∀ tok ∈ args,
        ¬ (tok = str "--threads" ∨ (str "--threads" ++ str "=") <+: tok) :=
      fun tok ht hm => hm.elim (h tok ht).1 (h tok ht).2
    unfold ExtractThreadsFromArgs copyArgs
    simp [findFlag_absent _ args h', removeFlag_sentinel]

theorem Extract_absent_witness :
    (∀ tok ∈ [str "build", str "--tag-x=1"],
        tok ≠ str "--" ++ str "tag" ∧ ¬ (str "--" ++ str "tag" ++ str "=") <+: tok) ∧
      ExtractStringOptionFromArgs [str "build", str "--tag-x=1"] (str "tag") =
        some ([str "build", str "--tag-x=1"], [], none) ∧
      ExtractBoolFlagFromArgs [str "build", str "--tag-x=1"] (str "tag") =
        some ([str "build", str "--tag-x=1"], false, none) ∧
      ExtractThreadsFromArgs [str "build", str "--tag-x=1"] 3 =
        some ([str "build", str "--tag-x=1"], 3, none) :=
  ⟨by decide,
    ((Extract_absent [str "build", str "--tag-x=1"] (str "tag") 3).1 (by decide)).1,
    ((Extract_absent [str "build", str "--tag-x=1"] (str "tag") 3).1 (by decide)).2,
    (Extract_absent [str "build", str "--tag-x=1"] (str "tag") 3).2 (by decide)⟩

/-! ## `FindBooleanFlag` -/

theorem parseBool_true (lit : GoString)
    (h : lit ∈ [str "1", str "t", str "T", str "TRUE", str "true", str "True"]) :
    ParseBool lit = (true, none) := by
  unfold ParseBool
  simp only [List.mem_cons, List.mem_singleton, List.not_mem_nil, or_false] at h
  rw [if_pos h]

theorem parseBool_false (lit : GoString)
    (h : lit ∈ [str "0", str "f", str "F", str "FALSE", str "false", str "False"]) :
    ParseBool lit = (false, none) := by
  simp only [List.mem_cons, List.mem_singleton, List.not_mem_nil, or_false] at h
  rcases h with rfl | rfl | rfl | rfl | rfl | rfl <;> decide

theorem parseBool_error (lit : GoString)
    (ht : lit ∉ [str "1", str "t", str "T", str "TRUE", str "true", str "True"])
    (hf : lit ∉ [str "0", str "f", str "F", str "FALSE", str "false", str "False"]) :
    ParseBool lit = (false, some (Error.parseBoolSyntax lit)) := by
  unfold ParseBool
  simp only [List.mem_cons, List.mem_singleton, List.not_mem_nil, or_false] at ht hf
  rw [if_neg ht, if_neg hf]

/-- C9 (boolean flag forms): let `i` be the least index whose token equals `F` or begins
with `F ++ "="` (tokens having `F` as a strict prefix of a longer name are skipped).  If
`args[i] = F` then `FindBooleanFlag F args = (i, true, nil)`.  If `args[i] = F ++ "=" ++ lit`
the result is `(i, true, nil)` for `lit` one of 1, t, T, TRUE, true, True, `(i, false, nil)`
for `lit` one of 0, f, F, FALSE, false, False, and a non-nil error for every other `lit`,
the empty string included. -/
theorem FindBooleanFlag_forms (F : GoString) (args : List GoString) (i : Nat)
    (tok : GoString) (hi : args[i]? = some tok) (hm : tok = F ∨ (F ++ str "=") <+: tok)
    (hfirst : ∀ j < i, ∀ t, args[j]? = some t → t ≠ F ∧ ¬ (F ++ str "=") <+: t) :
    (tok = F → FindBooleanFlag F args = ⟨i, true, none⟩) ∧
    (∀ lit, tok = F ++ str "=" ++ lit →
      (lit ∈ [str "1", str "t", str "T", str "TRUE", str "true", str "True"] →
        FindBooleanFlag F args = ⟨i, true, none⟩) ∧
      (lit ∈ [str "0", str "f", str "F", str "FALSE", str "false", str "False"] →
        FindBooleanFlag F args = ⟨i, false, none⟩) ∧
      (lit ∉ [str "1", str "t", str "T", str "TRUE", str "true", str "True"] →
        lit ∉ [str "0", str "f", str "F", str "FALSE", str "false", str "False"] →
        (FindBooleanFlag F args).err ≠ none)) := by
  have hr := findBooleanFlag_first F args i tok hi hm
    (fun j hj t ht hmt => hmt.elim (hfirst j hj t ht).1 (hfirst j hj t ht).2)
  constructor
  · intro h0
    rw [hr, if_pos h0]
  · intro lit h0
    have hne : tok ≠ F := h0 ▸ append_eq_ne_self F lit
    have hdrop : tok.drop (F.length + 1) = lit := by
      rw [h0]
      simp [str_eq]
    rw [hr, if_neg hne, hdrop]
    refine ⟨?_, ?_, ?_⟩
    · intro ht
      rw [parseBool_true lit ht]
    · intro hf
      rw [parseBool_false lit hf]
    · intro ht hf
      rw [parseBool_error lit ht hf]
      simp

theorem FindBooleanFlag_forms_witness :
    FindBooleanFlag (str "--fail") [str "--fail"] = ⟨0, true, none⟩ ∧
      FindBooleanFlag (str "--fail") [str "--failx", str "--fail=false", str "--fail"] =
        ⟨1, false, none⟩ ∧
      (FindBooleanFlag (str "--fail") [str "--fail=notabool"]).err ≠ none :=
  ⟨(FindBooleanFlag_forms (str "--fail") [str "--fail"] 0 (str "--fail") (by decide)
      (by decide) (by intro j hj; omega)).1 rfl,
    ((FindBooleanFlag_forms (str "--fail") [str "--failx", str "--fail=false", str "--fail"] 1
      (str "--fail=false") (by decide) (by decide)
      (by
        intro j hj t ht
        obtain rfl : j = 0 := by omega
        obtain rfl : str "--failx" = t := by simpa using ht
        decide)).2 (str "false") (by decide)).2.1 (by decide),
    ((FindBooleanFlag_forms (str "--fail") [str "--fail=notabool"] 0 (str "--fail=notabool")
      (by decide) (by decide) (by intro j hj; omega)).2 (str "notabool") (by decide)).2.2
      (by decide) (by decide)⟩

/-- C10: `FindBooleanFlag F args` returns flagIndex = -1 if and only if no token of `args`
equals `F` or begins with `F ++ "="` (the empty list included), and in that case it returns
exactly `(-1, false, nil)`. -/
theorem FindBooleanFlag_not_found_iff (F : GoString) (args : List GoString) :
    ((FindBooleanFlag F args).flagIndex = -1 ↔
        ∀ tok ∈ args, tok ≠ F ∧ ¬ (F ++ str "=") <+: tok) ∧
      ((FindBooleanFlag F args).flagIndex = -1 →
        FindBooleanFlag F args = ⟨-1, false, none⟩) := by
  rcases findBooleanFlag_cases F args with ⟨habs, hr⟩ | ⟨i, tok, hi, hm, -, hr⟩
  · rw [hr]
    refine ⟨⟨fun _ tok ht => ?_, fun _ => rfl⟩, fun _ => rfl⟩
    exact ⟨fun h => habs tok ht (Or.inl h), fun h => habs tok ht (Or.inr h)⟩
  · have hidx : (FindBooleanFlag F args).flagIndex = i := by
      rw [hr]
      split <;> rfl
    have hne : (FindBooleanFlag F args).flagIndex ≠ -1 := by
      rw [hidx]
      omega
    refine ⟨⟨fun h => absurd h hne, fun h => ?_⟩, fun h => absurd h hne⟩
    have := h tok (List.getElem?_mem hi)
    exact absurd hm (fun hm => hm.elim this.1 this.2)

theorem FindBooleanFlag_not_found_iff_witness :
    (FindBooleanFlag (str "--fail") []).flagIndex = -1 ∧
      FindBooleanFlag (str "--fail") [] = ⟨-1, false, none⟩ :=
  ⟨by decide, (FindBooleanFlag_not_found_iff (str "--fail") []).2 (by decide)⟩

/-! ## The model of `strconv.Atoi` on decimal numerals -/

theorem digitByte_toNat (d : Nat) (hd : d < 10) : (UInt8.ofNat (48 + d)).toNat = 48 + d := by
  interval_cases d <;> rfl

theorem foldl_digits_ge (ds : List Nat) (m : Nat) :
    m ≤ ds.foldl (fun a d => a * 10 + d) m := by
  induction ds generalizing m with
  | nil => simp
  | cons d ds ih =>
    simp only [List.foldl_cons]
    exact le_trans (by omega) (ih (m * 10 + d))

theorem parseUintLoop_digits (ds : List Nat) (m : Nat) (hd : ∀ d ∈ ds, d < 10)
    (hb : ds.foldl (fun a d => a * 10 + d) m < 2 ^ 64) :
    parseUintLoop (ds.map (fun d => UInt8.ofNat (48 + d))) m =
      (ds.foldl (fun a d => a * 10 + d) m, none) := by
  induction ds generalizing m with
  | nil => simp [parseUintLoop]
  | cons d ds ih =>
    have hd10 : d < 10 := hd d (List.mem_cons_self _ _)
    have hge := foldl_digits_ge ds (m * 10 + d)
    simp only [List.foldl_cons] at hb ⊢
    have hm : m * 10 + d < 2 ^ 64 := lt_of_le_of_lt hge hb
    simp only [List.map_cons, parseUintLoop, digitByte_toNat d hd10, intSize]
    have h1 : 48 ≤ 48 + d ∧ 48 + d ≤ 57 := by omega
    have h2 : ¬ (m ≥ (2 ^ 64 - 1) / 10 + 1) := by
      norm_num at hm ⊢
      omega
    have h3 : ¬ (m * 10 + (48 + d - 48) > 2 ^ 64 - 1) := by
      norm_num at hm ⊢
      omega
    rw [if_pos h1, if_neg h2, if_neg h3]
    have h4 : 48 + d - 48 = d := by omega
    rw [h4]
    exact ih (m * 10 + d) (fun x hx => hd x (List.mem_cons_of_mem _ hx)) hb

theorem foldl_reverse_digits (n : Nat) :
    (Nat.digits 10 n).reverse.foldl (fun a d => a * 10 + d) 0 = n := by
  rw [List.foldl_reverse]
  have h := Nat.ofDigits_eq_foldr (10 : Nat) (Nat.digits 10 n)
  rw [Nat.ofDigits_digits] at h
  have hf : (fun (x y : Nat) => y * 10 + x) = (fun (x y : Nat) => ((x : Nat) : Nat) + 10 * y) := by
    funext x y
    show y * 10 + x = x + 10 * y
    omega
  rw [hf]
  exact h.symm

theorem natNumeral_eq_map (n : Nat) :
    ∃ ds : List Nat, ds ≠ [] ∧ (∀ d ∈ ds, d < 10) ∧
      natNumeral n = ds.map (fun d => UInt8.ofNat (48 + d)) ∧
      ds.foldl (fun a d => a * 10 + d) 0 = n := by
  by_cases h0 : n = 0
  · subst h0
    exact ⟨[0], by simp, by simp, by simp [natNumeral], by simp⟩
  · refine ⟨(Nat.digits 10 n).reverse, ?_, ?_, ?_, foldl_reverse_digits n⟩
    · simpa using Nat.digits_ne_nil_iff_ne_zero.2 h0
    · intro d hd
      exact Nat.digits_lt_base (by norm_num) (List.mem_reverse.1 hd)
    · simp [natNumeral, h0]

theorem parseUint_natNumeral (n : Nat) (hn : n < 2 ^ 64) :
    ParseUint (natNumeral n) = (n, none) := by
  obtain ⟨ds, hne, hd, heq, hval⟩ := natNumeral_eq_map n
  unfold ParseUint
  have hne2 : natNumeral n ≠ [] := by
    rw [heq]
    simpa using hne
  rw [if_neg hne2, heq, parseUintLoop_digits ds 0 hd (by rw [hval]; exact hn), hval]

theorem natNumeral_head (n : Nat) :
    ∃ c rest, natNumeral n = c :: rest ∧ 48 ≤ c.toNat ∧ c.toNat ≤ 57 := by
  obtain ⟨ds, hne, hd, heq, -⟩ := natNumeral_eq_map n
  cases ds with
  | nil => exact absurd rfl hne
  | cons d ds =>
    refine ⟨UInt8.ofNat (48 + d), ds.map (fun d => UInt8.ofNat (48 + d)), by simpa using heq, ?_⟩
    rw [digitByte_toNat d (hd d (List.mem_cons_self _ _))]
    have := hd d (List.mem_cons_self _ _)
    omega

/-- The model of `strconv.Atoi` returns `k` on the decimal numeral of every `k` that fits a
machine integer. -/
theorem atoi_intNumeral (k : Int) (hlo : -(2 ^ 63 : Int) ≤ k) (hhi : k < 2 ^ 63) :
    Atoi (intNumeral k) = (k, none) := by
  have hn : k.natAbs < 2 ^ 64 := by omega
  have hp := parseUint_natNumeral k.natAbs hn
  unfold Atoi ParseInt intNumeral
  by_cases hk : k < 0
  · have habs : -((k.natAbs : Nat) : Int) = k := by omega
    have hle : ¬ (k.natAbs > 2 ^ 63) := by omega
    simp only [hk, if_true, List.head?_cons, intSize]
    simp [hp, -Int.natCast_natAbs]
    rw [if_neg (by omega), habs]
  · obtain ⟨c, rest, hc, hc1, hc2⟩ := natNumeral_head k.natAbs
    have habs : ((k.natAbs : Nat) : Int) = k := by omega
    have hle : ¬ (k.natAbs ≥ 2 ^ 63) := by omega
    have hc43 : c ≠ 43 := by
      rintro rfl
      revert hc1
      decide
    have hc45 : c ≠ 45 := by
      rintro rfl
      revert hc1
      decide
    simp only [hk, if_false]
    rw [hc] at hp ⊢
    simp only [List.head?_cons, Option.some.injEq, hc43, hc45, or_self, if_false, intSize, hp]
    simp [-Int.natCast_natAbs]
    rw [if_neg (by omega), habs]

/-! ## `ExtractThreadsFromArgs`: numeric and non-numeric values -/

theorem str_plus : str "+" = [43] := by decide

theorem intNumeral_ne_nil (k : Int) : intNumeral k ≠ [] := by
  unfold intNumeral
  obtain ⟨c, rest, hc, -, -⟩ := natNumeral_head k.natAbs
  split
  · simp
  · rw [hc]
    simp

/-- C11: when `FindFlag("--threads", args)` finds the flag with nil error at indices `(i, j)`
and its value is the decimal numeral of an integer `k` in the range of a machine integer,
`ExtractThreadsFromArgs(args, d)` returns, for every default `d`, nil error, threads = `k`
and `cleanArgs` equal to `args` with the tokens at indices `i..j` deleted, the other tokens
in their original order. -/
theorem ExtractThreadsFromArgs_numeral (args : List GoString) (d k : Int) (r : FlagResult)
    (h : FindFlag (str "--threads") args = some r) (he : r.err = none)
    (hi : r.flagIndex ≠ -1) (hlo : -(2 ^ 63 : Int) ≤ k) (hhi : k < 2 ^ 63)
    (hv : r.flagValue = intNumeral k) :
    ExtractThreadsFromArgs args d =
      some (args.take r.flagIndex.toNat ++ args.drop (r.flagValueIndex.toNat + 1), k, none) := by
  obtain ⟨i, hfi, hlt, hform⟩ := findFlag_found _ args r h he hi
  have hex : ∃ j : Nat, r.flagValueIndex = j ∧ i ≤ j ∧ j < args.length := by
    rcases hform with ⟨hj, -⟩ | ⟨hj, hlt2, -, -⟩
    · exact ⟨i, hj, le_refl _, hlt⟩
    · exact ⟨i + 1, by rw [hj]; push_cast; rfl, by omega, hlt2⟩
  obtain ⟨j, hfv, hij, hj⟩ := hex
  have hne : r.flagValue ≠ [] := hv ▸ intNumeral_ne_nil k
  unfold ExtractThreadsFromArgs copyArgs
  simp only [List.nil_append, h, he, ne_eq, not_true_eq_false, if_false]
  rw [hfi, hfv, removeFlag_span args i j hj hij]
  dsimp only
  rw [if_pos hne, hv, atoi_intNumeral k hlo hhi]
  simp

theorem ExtractThreadsFromArgs_numeral_witness :
    FindFlag (str "--threads") [str "build", str "--threads=-12", str "x"] =
        some ⟨1, 1, str "-12", none⟩ ∧
      str "-12" = intNumeral (-12) ∧
      ExtractThreadsFromArgs [str "build", str "--threads=-12", str "x"] 3 =
        some ([str "build", str "x"], -12, none) :=
  ⟨by decide, by simp [intNumeral, natNumeral]; decide,
    ExtractThreadsFromArgs_numeral [str "build", str "--threads=-12", str "x"] 3 (-12)
      ⟨1, 1, str "-12", none⟩ (by decide) rfl (by decide) (by norm_num) (by norm_num)
      (by simp [intNumeral, natNumeral]; decide)⟩

theorem parseUintLoop_ok (s : List UInt8) (n : Nat) :
    ((parseUintLoop s n).2 = none → ∀ c ∈ s, 48 ≤ c.toNat ∧ c.toNat ≤ 57) ∧
      ((parseUintLoop s n).2 = some NumErr.ErrRange → (parseUintLoop s n).1 = 2 ^ 64 - 1) := by
  induction s generalizing n with
  | nil => simp [parseUintLoop]
  | cons c s ih =>
    rw [parseUintLoop]
    by_cases hc : 48 ≤ c.toNat ∧ c.toNat ≤ 57
    · rw [if_pos hc]
      dsimp only
      split
      · simp [intSize]
      · split
        · simp [intSize]
        · refine ⟨fun h x hx => ?_, (ih _).2⟩
          rcases List.mem_cons.1 hx with rfl | hx
          · exact hc
          · exact (ih _).1 h x hx
    · rw [if_neg hc]
      simp

/-- The model of `strconv.Atoi` fails on every non-empty string that is not an optional sign
followed by one or more decimal digits. -/
theorem atoi_error_of_not_literal (v : GoString)
    (hbad : ¬ ∃ ds : GoString, ds ≠ [] ∧ (∀ c ∈ ds, 48 ≤ c.toNat ∧ c.toNat ≤ 57) ∧
      (v = ds ∨ v = str "+" ++ ds ∨ v = str "-" ++ ds)) :
    (Atoi v).2 ≠ none := by
  intro hnone
  apply hbad
  unfold Atoi ParseInt at hnone
  by_cases hv : v = []
  · simp [hv] at hnone
  · rw [if_neg hv] at hnone
    dsimp only at hnone
    -- the digits that remain after the sign
    generalize hbody : (if v.head? = some 43 ∨ v.head? = some 45 then v.drop 1 else v) = body
      at hnone
    have hp : (ParseUint body).2 = none := by
      by_contra hne
      cases hq : (ParseUint body).2 with
      | none => exact hne hq
      | some e =>
        cases e with
        | ErrSyntax => simp [hq] at hnone
        | ErrRange =>
          have hmax : (ParseUint body).1 = 2 ^ 64 - 1 := by
            unfold ParseUint at hq ⊢
            split at hq
            · simp at hq
            · rename_i hb
              rw [if_neg hb]
              exact (parseUintLoop_ok body 0).2 hq
          rw [hq, hmax] at hnone
          simp only [intSize] at hnone
          by_cases hneg : v.head? = some 45 <;> simp [hneg] at hnone
    have hbne : body ≠ [] := by
      intro hb
      simp [hb, ParseUint] at hp
    have hdig : ∀ c ∈ body, 48 ≤ c.toNat ∧ c.toNat ≤ 57 := by
      unfold ParseUint at hp
      rw [if_neg hbne] at hp
      exact (parseUintLoop_ok body 0).1 hp
    refine ⟨body, hbne, hdig, ?_⟩
    cases v with
    | nil => exact absurd rfl hv
    | cons c rest =>
      by_cases hs : c = 43 ∨ c = 45
      · have : body = rest := by
          rw [← hbody]
          simp [hs]
        rcases hs with rfl | rfl
        · exact Or.inr (Or.inl (by rw [this]; rfl))
        · exact Or.inr (Or.inr (by rw [this]; rfl))
      · left
        rw [← hbody]
        simp [hs]

/-- C12: when `FindFlag("--threads", args)` finds the flag with nil error and a non-empty
value that is not a base-10 integer literal (an optional sign followed by one or more
decimal digits), `ExtractThreadsFromArgs(args, d)` returns a non-nil error for every
default `d`. -/
theorem ExtractThreadsFromArgs_not_numeric (args : List GoString) (d : Int) (r : FlagResult)
    (h : FindFlag (str "--threads") args = some r) (he : r.err = none)
    (hi : r.flagIndex ≠ -1) (hne : r.flagValue ≠ [])
    (hbad : ¬ ∃ ds : GoString, ds ≠ [] ∧ (∀ c ∈ ds, 48 ≤ c.toNat ∧ c.toNat ≤ 57) ∧
      (r.flagValue = ds ∨ r.flagValue = str "+" ++ ds ∨ r.flagValue = str "-" ++ ds)) :
    ∃ cleanArgs threads e, ExtractThreadsFromArgs args d = some (cleanArgs, threads, some e) := by
  obtain ⟨i, hfi, hlt, hform⟩ := findFlag_found _ args r h he hi
  have hex : ∃ j : Nat, r.flagValueIndex = j ∧ i ≤ j ∧ j < args.length := by
    rcases hform with ⟨hj, -⟩ | ⟨hj, hlt2, -, -⟩
    · exact ⟨i, hj, le_refl _, hlt⟩
    · exact ⟨i + 1, by rw [hj]; push_cast; rfl, by omega, hlt2⟩
  obtain ⟨j, hfv, hij, hj⟩ := hex
  have herr := atoi_error_of_not_literal r.flagValue hbad
  obtain ⟨e, he2⟩ := Option.ne_none_iff_exists'.1 herr
  refine ⟨args.take i ++ args.drop (j + 1), (Atoi r.flagValue).1, CheckError e, ?_⟩
  unfold ExtractThreadsFromArgs copyArgs
  simp only [List.nil_append, h, he, ne_eq, not_true_eq_false, if_false]
  rw [hfi, hfv, removeFlag_span args i j hj hij]
  simp only [hne, not_false_eq_true, if_true, he2, Option.map_some']

theorem ExtractThreadsFromArgs_not_numeric_witness :
    (∃ cleanArgs threads e,
        ExtractThreadsFromArgs [str "--threads=abc"] 3 = some (cleanArgs, threads, some e)) ∧
      (∃ cleanArgs threads e,
        ExtractThreadsFromArgs [str "--threads", str "four"] 3 =
          some (cleanArgs, threads, some e)) := by
  have hbad : ∀ v : GoString, (∃ c ∈ v.head?, ¬ (48 ≤ c.toNat ∧ c.toNat ≤ 57) ∧ c ≠ 43 ∧ c ≠ 45) →
      ¬ ∃ ds : GoString, ds ≠ [] ∧ (∀ c ∈ ds, 48 ≤ c.toNat ∧ c.toNat ≤ 57) ∧
        (v = ds ∨ v = str "+" ++ ds ∨ v = str "-" ++ ds) := by
    rintro v ⟨c, hc, hnd, h43, h45⟩ ⟨ds, hds, hdig, hv | hv | hv⟩
    · rw [hv] at hc
      cases ds with
      | nil => exact hds rfl
      | cons x xs =>
        simp at hc
        subst hc
        exact hnd (hdig x (List.mem_cons_self _ _))
    · rw [hv] at hc
      simp [str_plus] at hc
      exact h43 hc.symm
    · rw [hv] at hc
      simp [str_dash] at hc
      exact h45 hc.symm
  exact ⟨ExtractThreadsFromArgs_not_numeric [str "--threads=abc"] 3 ⟨0, 0, str "abc", none⟩
      (by decide) rfl (by decide) (by decide)
      (hbad (str "abc") ⟨97, by decide, by decide, by decide, by decide⟩),
    ExtractThreadsFromArgs_not_numeric [str "--threads", str "four"] 3
      ⟨0, 1, str "four", none⟩ (by decide) rfl (by decide) (by decide)
      (hbad (str "four") ⟨102, by decide, by decide, by decide, by decide⟩)⟩

/-! ## The shapes of a `FindFlag` result; results returned with an error -/

/-- The four shapes of a result of `FindFlag`: absent, failed, inline value, value in the
next token.  In particular `FindFlag` always returns. -/
theorem findFlag_shape (F : GoString) (args : List GoString) :
    ∃ r, FindFlag F args = some r ∧
      ((r = ⟨-1, -1, [], none⟩ ∧ ∀ tok ∈ args, ¬ (tok = F ∨ (F ++ str "=") <+: tok)) ∨
        (∃ e, r = ⟨-1, -1, [], some e⟩ ∧ ∃ tok ∈ args, tok = F ∨ (F ++ str "=") <+: tok) ∨
        (∃ (i : Nat) (v : GoString), v ≠ [] ∧ args[i]? = some (F ++ str "=" ++ v) ∧
          r = ⟨i, i, v, none⟩) ∨
        (∃ (i : Nat) (nxt : GoString), args[i]? = some F ∧ args[i + 1]? = some nxt ∧
          ¬ (str "-") <+: nxt ∧ r = ⟨i, (i : Int) + 1, nxt, none⟩)) := by
  rcases findFlag_cases F args with ⟨habs, hr⟩ | ⟨i, tok, hget, hm, -, hr⟩
  · exact ⟨_, hr, Or.inl ⟨rfl, habs⟩⟩
  · have hmem : ∃ t ∈ args, t = F ∨ (F ++ str "=") <+: t := ⟨tok, List.getElem?_mem hget, hm⟩
    rcases flag_cases F tok hm with h0 | h0 | ⟨v, hv, h0⟩
    · rw [if_pos h0] at hr
      cases hn : args[i + 1]? with
      | none =>
        rw [hn] at hr
        exact ⟨_, hr, Or.inr (Or.inl ⟨_, rfl, hmem⟩)⟩
      | some nxt =>
        rw [hn] at hr
        dsimp only at hr
        by_cases hd : HasPrefix nxt (str "-") = true
        · rw [if_pos hd] at hr
          exact ⟨_, hr, Or.inr (Or.inl ⟨_, rfl, hmem⟩)⟩
        · rw [if_neg hd] at hr
          have hd2 : ¬ (str "-") <+: nxt := fun h => hd ((HasPrefix_iff _ _).2 h)
          exact ⟨_, hr, Or.inr (Or.inr (Or.inr ⟨i, nxt, h0 ▸ hget, hn, hd2, rfl⟩))⟩
    · have hne : tok ≠ F := by
        rw [h0]
        exact append_ne_self F _ (by simp [str_eq])
      rw [if_neg hne, if_pos h0] at hr
      exact ⟨_, hr, Or.inr (Or.inl ⟨_, rfl, hmem⟩)⟩
    · have hne : tok ≠ F := h0 ▸ append_eq_ne_self F v
      have hne2 : tok ≠ F ++ str "=" := h0 ▸ append_eq_ne F v hv
      rw [if_neg hne, if_neg hne2] at hr
      have hdrop : tok.drop (F.length + 1) = v := by
        rw [h0]
        simp [str_eq]
      rw [hdrop] at hr
      exact ⟨_, hr, Or.inr (Or.inr (Or.inl ⟨i, v, hv, h0 ▸ hget, rfl⟩))⟩

/-- Whenever `FindFlag` returns a non-nil error, its other three results are `-1, -1, ""`. -/
theorem findFlag_error_values (F : GoString) (args : List GoString) (r : FlagResult)
    (h : FindFlag F args = some r) (he : r.err ≠ none) :
    r.flagIndex = -1 ∧ r.flagValueIndex = -1 ∧ r.flagValue = [] := by
  obtain ⟨r', hr', hshape⟩ := findFlag_shape F args
  rw [h] at hr'
  cases hr'
  rcases hshape with ⟨rfl, -⟩ | ⟨e, rfl, -⟩ | ⟨i, v, -, -, rfl⟩ | ⟨i, nxt, -, -, -, rfl⟩
  · exact absurd rfl he
  · exact ⟨rfl, rfl, rfl⟩
  · exact absurd rfl he
  · exact absurd rfl he

/-- The wrappers on the error path of the flag locator: nothing has been removed. -/
theorem extractThreads_of_findFlag_error (args : List GoString) (d : Int) (r : FlagResult)
    (h : FindFlag (str "--threads") args = some r) (he : r.err ≠ none) :
    ExtractThreadsFromArgs args d = some (args, d, r.err) := by
  unfold ExtractThreadsFromArgs copyArgs
  simp [h, he]

/-- C13, the case the code breaks: on an integer parse failure `ExtractThreadsFromArgs`
returns an error together with a `cleanArgs` from which the flag is already removed. -/
theorem ExtractThreadsFromArgs_partial_on_error :
    ExtractThreadsFromArgs [str "build", str "--threads=abc"] 3 =
        some ([str "build"], 0, some (Error.atoiSyntax (str "abc"))) ∧
      [str "build"] ≠ [str "build", str "--threads=abc"] := by
  decide

/-- C13 as amended: `ExtractStringOptionFromArgs` and `ExtractBoolFlagFromArgs` return
`cleanArgs = args` whenever they return a non-nil error, and so does
`ExtractThreadsFromArgs` when the error comes from locating the flag; when the error is the
failure to parse the located value as an integer, `ExtractThreadsFromArgs` returns `args`
with the tokens of the flag removed. -/
theorem Extract_cleanArgs_on_error (args : List GoString) (n : GoString) (d : Int) :
    (∀ c v e, ExtractStringOptionFromArgs args n = some (c, v, some e) → c = args) ∧
    (∀ c b e, ExtractBoolFlagFromArgs args n = some (c, b, some e) → c = args) ∧
    (∀ c t e, ExtractThreadsFromArgs args d = some (c, t, some e) →
      ∃ r, FindFlag (str "--threads") args = some r ∧
        ((r.err = some e ∧ c = args) ∨
          (r.err = none ∧ r.flagIndex ≠ -1 ∧ (Atoi r.flagValue).2 = some e ∧
            c = args.take r.flagIndex.toNat ++ args.drop (r.flagValueIndex.toNat + 1)))) := by
  refine ⟨?_, ?_, ?_⟩
  · intro c v e h
    unfold ExtractStringOptionFromArgs copyArgs at h
    obtain ⟨r, hr, -⟩ := findFlag_shape (str "--" ++ n) args
    simp only [List.nil_append, hr] at h
    by_cases he : r.err = none
    · rw [if_neg (by simpa using he)] at h
      cases hrem : RemoveFlagFromCommand args r.flagIndex r.flagValueIndex with
      | none => simp [hrem] at h
      | some c' =>
        simp [hrem, he] at h
    · rw [if_pos he] at h
      simp at h
      exact h.1.symm
  · intro c b e h
    unfold ExtractBoolFlagFromArgs extractBoolOptionFromArgs copyArgs at h
    simp only [List.nil_append] at h
    by_cases he : (FindBooleanFlag (str "--" ++ n) args).err = none
    · rw [if_neg (by simpa using he)] at h
      cases hrem : RemoveFlagFromCommand args (FindBooleanFlag (str "--" ++ n) args).flagIndex
          (FindBooleanFlag (str "--" ++ n) args).flagIndex with
      | none => simp [hrem] at h
      | some c' =>
        simp [hrem, he] at h
    · rw [if_pos he] at h
      simp at h
      exact h.1.symm
  · intro c t e h
    obtain ⟨r, hr, hshape⟩ := findFlag_shape (str "--threads") args
    refine ⟨r, hr, ?_⟩
    by_cases he : r.err = none
    · right
      unfold ExtractThreadsFromArgs copyArgs at h
      simp only [List.nil_append, hr] at h
      rw [if_neg (by simpa using he)] at h
      rcases hshape with ⟨rfl, -⟩ | ⟨e', rfl, -⟩ | ⟨i, v, hv, hget, rfl⟩ |
        ⟨i, nxt, hget, hn, -, rfl⟩
      · simp [removeFlag_sentinel] at h
      · simp at he
      · obtain ⟨hlt, -⟩ := List.getElem?_eq_some_iff.1 hget
        rw [removeFlag_span args i i hlt (le_refl _)] at h
        dsimp only at h
        rw [if_pos hv] at h
        simp only [Option.some.injEq, Prod.mk.injEq] at h
        obtain ⟨hc, -, hee⟩ := h
        refine ⟨rfl, by dsimp only; omega, ?_, ?_⟩
        · cases hA : (Atoi v).2 with
          | none => simp [hA] at hee
          | some e2 =>
            rw [hA] at hee
            simpa [CheckError] using hee
        · simpa using hc.symm
      · obtain ⟨hlt, -⟩ := List.getElem?_eq_some_iff.1 hn
        have hcast : ((i : Int) + 1) = ((i + 1 : Nat) : Int) := by push_cast; rfl
        rw [hcast, removeFlag_span args i (i + 1) hlt (by omega)] at h
        dsimp only at h
        by_cases hv : nxt = []
        · simp [hv] at h
        · rw [if_pos hv] at h
          simp only [Option.some.injEq, Prod.mk.injEq] at h
          obtain ⟨hc, -, hee⟩ := h
          refine ⟨rfl, by dsimp only; omega, ?_, ?_⟩
          · cases hA : (Atoi nxt).2 with
            | none => simp [hA] at hee
            | some e2 =>
              rw [hA] at hee
              simpa [CheckError] using hee
          · rw [hcast]
            simpa using hc.symm
    · left
      rw [extractThreads_of_findFlag_error args d r hr he] at h
      simp only [Option.some.injEq, Prod.mk.injEq] at h
      exact ⟨h.2.2, h.1.symm⟩

theorem Extract_cleanArgs_on_error_witness :
    (ExtractStringOptionFromArgs [str "build", str "--tag"] (str "tag") =
        some ([str "build", str "--tag"], [], some (Error.failedExtracting (str "--tag"))) ∧
      [str "build", str "--tag"] = [str "build", str "--tag"]) ∧
    (ExtractThreadsFromArgs [str "build", str "--threads=abc"] 3 =
        some ([str "build"], 0, some (Error.atoiSyntax (str "abc"))) ∧
      ∃ r, FindFlag (str "--threads") [str "build", str "--threads=abc"] = some r ∧
        ((r.err = some (Error.atoiSyntax (str "abc")) ∧
            [str "build"] = [str "build", str "--threads=abc"]) ∨
          (r.err = none ∧ r.flagIndex ≠ -1 ∧
            (Atoi r.flagValue).2 = some (Error.atoiSyntax (str "abc")) ∧
            [str "build"] =
              [str "build", str "--threads=abc"].take r.flagIndex.toNat ++
                [str "build", str "--threads=abc"].drop (r.flagValueIndex.toNat + 1)))) :=
  ⟨⟨by decide,
      (Extract_cleanArgs_on_error [str "build", str "--tag"] (str "tag") 0).1
        [str "build", str "--tag"] [] (Error.failedExtracting (str "--tag")) (by decide)⟩,
    ⟨by decide,
      (Extract_cleanArgs_on_error [str "build", str "--threads=abc"] (str "tag") 3).2.2
        [str "build"] 0 (Error.atoiSyntax (str "abc")) (by decide)⟩⟩

/-! ## The sentinel index and the first byte of a value -/

/-- C14 as stated fails: a flag without a value makes `FindFlag` return the sentinel index
-1 together with a non-nil error. -/
theorem FindFlag_sentinel_with_error :
    FindFlag (str "--threads") [str "--threads"] =
      some ⟨-1, -1, [], some (Error.failedExtracting (str "--threads"))⟩ := by
  decide

/-- C14 as amended: `FindFlag` always returns; it returns flagIndex = -1 with a nil error
exactly when no token equals `F` or begins with `F ++ "="` (not-found is never an error),
and it also leaves flagIndex at -1 whenever it returns a non-nil error. -/
theorem FindFlag_sentinel (F : GoString) (args : List GoString) :
    ∃ r, FindFlag F args = some r ∧
      ((r.flagIndex = -1 ∧ r.err = none) ↔
        ∀ tok ∈ args, tok ≠ F ∧ ¬ (F ++ str "=") <+: tok) ∧
      (r.err ≠ none → r.flagIndex = -1) := by
  obtain ⟨r, hr, hshape⟩ := findFlag_shape F args
  refine ⟨r, hr, ?_, fun he => (findFlag_error_values F args r hr he).1⟩
  rcases hshape with ⟨rfl, habs⟩ | ⟨e, rfl, tok, ht, hm⟩ | ⟨i, v, -, hget, rfl⟩ |
    ⟨i, nxt, hget, -, -, rfl⟩
  · refine ⟨fun _ tok ht => ?_, fun _ => ⟨rfl, rfl⟩⟩
    exact ⟨fun h => habs tok ht (Or.inl h), fun h => habs tok ht (Or.inr h)⟩
  · refine ⟨fun h => ?_, fun h => ?_⟩
    · simp at h
    · exact absurd hm (fun hm => hm.elim (h tok ht).1 (h tok ht).2)
  · refine ⟨fun h => ?_, fun h => ?_⟩
    · have := h.1
      dsimp only at this
      omega
    · exact absurd ⟨v, rfl⟩ (h _ (List.getElem?_mem hget)).2
  · refine ⟨fun h => ?_, fun h => ?_⟩
    · have := h.1
      dsimp only at this
      omega
    · exact absurd rfl (h _ (List.getElem?_mem hget)).1

theorem FindFlag_sentinel_witness :
    ∃ r, FindFlag (str "--threads") [str "--threads", str "--other"] = some r ∧
      r.err ≠ none ∧ r.flagIndex = -1 := by
  obtain ⟨r, hr, -, hsent⟩ := FindFlag_sentinel (str "--threads") [str "--threads", str "--other"]
  have hr2 : FindFlag (str "--threads") [str "--threads", str "--other"] =
      some ⟨-1, -1, [], some (Error.failedExtracting (str "--threads"))⟩ := by decide
  have he : r.err ≠ none := by
    rw [hr2] at hr
    cases hr
    simp
  exact ⟨r, hr, he, hsent he⟩

/-- C15 as stated fails: an inline value may begin with "-". -/
theorem FindFlag_inline_value_dash :
    FindFlag (str "--threads") [str "--threads=-4"] = some ⟨0, 0, str "-4", none⟩ ∧
      (str "-") <+: str "-4" := by
  decide

/-- C15 as amended: when `FindFlag` returns a nil error with flagIndex other than -1 and the
value was taken from the next token (flagValueIndex = flagIndex + 1), flagValue does not
begin with "-"; when the value is inline (flagValueIndex = flagIndex) it is the non-empty
text that follows "=", whatever its first byte. -/
theorem FindFlag_value_not_flag (F : GoString) (args : List GoString) (r : FlagResult)
    (h : FindFlag F args = some r) (he : r.err = none) (hi : r.flagIndex ≠ -1) :
    (r.flagValueIndex = r.flagIndex + 1 ∧ ¬ (str "-") <+: r.flagValue) ∨
      (r.flagValueIndex = r.flagIndex ∧ r.flagValue ≠ [] ∧
        index args r.flagIndex = some (F ++ str "=" ++ r.flagValue)) := by
  obtain ⟨r', hr', hshape⟩ := findFlag_shape F args
  rw [h] at hr'
  cases hr'
  rcases hshape with ⟨rfl, -⟩ | ⟨e, rfl, -⟩ | ⟨i, v, hv, hget, rfl⟩ | ⟨i, nxt, -, -, hd, rfl⟩
  · exact absurd rfl hi
  · exact absurd rfl hi
  · exact Or.inr ⟨rfl, hv, by rw [index_natCast]; exact hget⟩
  · exact Or.inl ⟨rfl, hd⟩

theorem FindFlag_value_not_flag_witness :
    FindFlag (str "--threads") [str "--threads", str "4"] = some ⟨0, 1, str "4", none⟩ ∧
      ((1 : Int) = 0 + 1 ∧ ¬ (str "-") <+: str "4" ∨
        ((1 : Int) = 0 ∧ str "4" ≠ [] ∧
          index [str "--threads", str "4"] 0 = some (str "--threads" ++ str "=" ++ str "4"))) :=
  ⟨by decide,
    FindFlag_value_not_flag (str "--threads") [str "--threads", str "4"]
      ⟨0, 1, str "4", none⟩ (by decide) rfl (by decide)⟩

/-! ## `FindFlagFirstMatch`, boolean extraction, formatter -/

theorem findFlagFirstMatchLoop_skip (args : List GoString) (pre rest : List GoString)
    (r0 : FlagResult)
    (hpre : ∀ g ∈ pre, ∃ rg, FindFlag g args = some rg ∧ rg.err = none ∧ rg.flagIndex = -1) :
    ∃ r1, findFlagFirstMatchLoop args (pre ++ rest) r0 = findFlagFirstMatchLoop args rest r1 ∧
      (pre = [] → r1 = r0) ∧
      (pre ≠ [] → ∃ g ∈ pre, FindFlag g args = some r1) := by
  induction pre generalizing r0 with
  | nil => exact ⟨r0, rfl, fun _ => rfl, fun h => absurd rfl h⟩
  | cons g pre ih =>
    obtain ⟨rg, hg, he, hi⟩ := hpre g (List.mem_cons_self _ _)
    obtain ⟨r1, hr1, hnil, hcons⟩ := ih rg (fun x hx => hpre x (List.mem_cons_of_mem _ hx))
    refine ⟨r1, ?_, fun h => absurd h (by simp), fun _ => ?_⟩
    · rw [List.cons_append, findFlagFirstMatchLoop, hg]
      simp only [he, ne_eq, not_true_eq_false, if_false, hi]
      exact hr1
    · by_cases hp : pre = []
      · exact ⟨g, List.mem_cons_self _ _, by rw [hnil hp]; exact hg⟩
      · obtain ⟨x, hx, hx2⟩ := hcons hp
        exact ⟨x, List.mem_cons_of_mem _ hx, hx2⟩

/-- C16: the order of the names decides.  When `f` is the first name of the list whose
`FindFlag` result on `args` is a found flag or an error (every name before it is not
found), `FindFlagFirstMatch` returns exactly the four values `FindFlag(f, args)` returns,
whatever the names after `f` and wherever their flags sit in `args`. -/
theorem FindFlagFirstMatch_first (pre post : List GoString) (f : GoString)
    (args : List GoString) (r : FlagResult)
    (hpre : ∀ g ∈ pre, ∃ rg, FindFlag g args = some rg ∧ rg.err = none ∧ rg.flagIndex = -1)
    (hf : FindFlag f args = some r) (hhit : r.err ≠ none ∨ r.flagIndex ≠ -1) :
    FindFlagFirstMatch (pre ++ f :: post) args = some r := by
  unfold FindFlagFirstMatch
  obtain ⟨r1, hr1, -, -⟩ := findFlagFirstMatchLoop_skip args pre (f :: post) ⟨0, 0, [], none⟩ hpre
  rw [hr1, findFlagFirstMatchLoop, hf]
  by_cases he : r.err = none
  · have hi : r.flagIndex ≠ -1 := hhit.resolve_left (fun h => h he)
    simp [he, hi]
  · simp [he]

theorem FindFlagFirstMatch_first_witness :
    FindFlag (str "--b") [str "--c=1", str "--b", str "2"] = some ⟨1, 2, str "2", none⟩ ∧
      FindFlagFirstMatch ([str "--a"] ++ str "--b" :: [str "--c"])
        [str "--c=1", str "--b", str "2"] = some ⟨1, 2, str "2", none⟩ :=
  ⟨by decide,
    FindFlagFirstMatch_first [str "--a"] [str "--c"] (str "--b")
      [str "--c=1", str "--b", str "2"] ⟨1, 2, str "2", none⟩
      (by
        intro g hg
        obtain rfl : g = str "--a" := by simpa using hg
        exact ⟨⟨-1, -1, [], none⟩, by decide, rfl, rfl⟩)
      (by decide) (Or.inr (by decide))⟩

/-- C17, the failing input: with an empty list of names `FindFlagFirstMatch` returns the
zero values `(0, 0, "", nil)`, which read as a flag found at index 0, instead of the
not-found values `(-1, -1, "", nil)` of `FindFlag`. -/
theorem FindFlagFirstMatch_empty_names :
    FindFlagFirstMatch [] [str "build", str "--threads=4"] = some ⟨0, 0, [], none⟩ ∧
      FindFlagFirstMatch [] [] = some ⟨0, 0, [], none⟩ := by
  decide

/-- For a non-empty list of names none of which is found, `FindFlagFirstMatch` returns the
not-found values of `FindFlag`. -/
theorem findFlagFirstMatch_exhausted (fs : List GoString) (args : List GoString)
    (hne : fs ≠ [])
    (hfs : ∀ g ∈ fs, FindFlag g args = some ⟨-1, -1, [], none⟩) :
    FindFlagFirstMatch fs args = some ⟨-1, -1, [], none⟩ := by
  unfold FindFlagFirstMatch
  obtain ⟨r1, hr1, -, hcons⟩ := findFlagFirstMatchLoop_skip args fs [] ⟨0, 0, [], none⟩
    (fun g hg => ⟨_, hfs g hg, rfl, rfl⟩)
  rw [List.append_nil] at hr1
  rw [hr1, findFlagFirstMatchLoop]
  obtain ⟨g, hg, hg2⟩ := hcons hne
  rw [hfs g hg] at hg2
  exact hg2.symm ▸ rfl

/-- C19: a boolean option consumes exactly one token.  When
`FindBooleanFlag("--" ++ n, args)` returns `(i, b, nil)` with `i` other than -1,
`ExtractBoolFlagFromArgs(args, n)` returns nil error, the value `b`, and `cleanArgs` equal to
`args` with only the token at index `i` deleted: one token shorter, the token that followed
the flag now at index `i`, and all remaining tokens in their original order. -/
theorem ExtractBoolFlagFromArgs_found (args : List GoString) (n : GoString) (i : Int)
    (b : Bool) (h : FindBooleanFlag (str "--" ++ n) args = ⟨i, b, none⟩) (hi : i ≠ -1) :
    ExtractBoolFlagFromArgs args n =
        some (args.take i.toNat ++ args.drop (i.toNat + 1), b, none) ∧
      (args.take i.toNat ++ args.drop (i.toNat + 1)).length + 1 = args.length ∧
      (args.take i.toNat ++ args.drop (i.toNat + 1))[i.toNat]? = args[i.toNat + 1]? ∧
      (args.take i.toNat ++ args.drop (i.toNat + 1)).Sublist args := by
  have hex : ∃ k : Nat, i = k ∧ k < args.length := by
    rcases findBooleanFlag_cases (str "--" ++ n) args with ⟨-, hr⟩ | ⟨k, tok, hget, -, -, hr⟩
    · rw [hr] at h
      cases h
      exact absurd rfl hi
    · obtain ⟨hlt, -⟩ := List.getElem?_eq_some_iff.1 hget
      rw [h] at hr
      refine ⟨k, ?_, hlt⟩
      split at hr
      · exact congrArg BoolFlagResult.flagIndex hr
      · exact congrArg BoolFlagResult.flagIndex hr
  obtain ⟨k, rfl, hk⟩ := hex
  have hlen := length_take_append_drop args k k hk (le_refl _)
  refine ⟨?_, ?_, ?_, ?_⟩
  · unfold ExtractBoolFlagFromArgs extractBoolOptionFromArgs copyArgs
    simp only [List.nil_append, h, ne_eq, not_true_eq_false, if_false]
    rw [removeFlag_span args k k hk (le_refl _)]
    simp
  · simp only [Int.toNat_ofNat]
    omega
  · simp only [Int.toNat_ofNat]
    have htl : (args.take k).length = k := by
      rw [List.length_take]
      omega
    rw [List.getElem?_append_right (by omega), htl, Nat.sub_self, List.getElem?_drop]
  · simp only [Int.toNat_ofNat]
    exact take_append_drop_sublist args k k (le_refl _)

theorem ExtractBoolFlagFromArgs_found_witness :
    FindBooleanFlag (str "--" ++ str "fail") [str "scan", str "--fail", str "true", str "x"] =
        ⟨1, true, none⟩ ∧
      ExtractBoolFlagFromArgs [str "scan", str "--fail", str "true", str "x"] (str "fail") =
        some ([str "scan", str "true", str "x"], true, none) :=
  ⟨by decide,
    (ExtractBoolFlagFromArgs_found [str "scan", str "--fail", str "true", str "x"] (str "fail")
      1 true (by decide) (by decide)).1⟩

/-- C20: every single-style function (`PrintTitle`, `PrintLink`, `PrintBold`,
`PrintComment`, `PrintRed`, `PrintYellow`, `PrintGreen`) returns, when one of the two
terminal predicates is false, the string without styling: `s` itself when `s` contains no
emoji and `RemoveEmojis(s)` otherwise, which is also the result of
`RemoveEmojisIfNonSupportedTerminal(s)`; when both predicates are true it returns the
`Render` of its style applied to `s` itself, without emoji stripping (title and green render
green, link cyan, bold bold, comment gray, red red, yellow yellow). -/
theorem Print_style (t : Terminal) (s : GoString) :
    ((t.IsStdOutTerminal = false ∨ t.IsColorsSupported = false) →
      (∀ f ∈ [PrintTitle, PrintLink, PrintBold, PrintComment, PrintRed, PrintYellow,
          PrintGreen],
        f t s = (if t.ContainsEmoji s then t.RemoveEmojis s else s) ∧
          f t s = RemoveEmojisIfNonSupportedTerminal t s)) ∧
    ((t.IsStdOutTerminal = true ∧ t.IsColorsSupported = true) →
      PrintTitle t s = t.Render Color.Green s ∧ PrintLink t s = t.Render Color.Cyan s ∧
        PrintBold t s = t.Render Color.Bold s ∧ PrintComment t s = t.Render Color.Gray s ∧
        PrintRed t s = t.Render Color.Red s ∧ PrintYellow t s = t.Render Color.Yellow s ∧
        PrintGreen t s = t.Render Color.Green s) := by
  constructor
  · intro h f hf
    have hcond : (t.IsStdOutTerminal && t.IsColorsSupported) = false := by
      rcases h with h | h <;> simp [h]
    simp only [List.mem_cons, List.mem_singleton, List.not_mem_nil, or_false] at hf
    rcases hf with rfl | rfl | rfl | rfl | rfl | rfl | rfl <;>
      simp [PrintTitle, PrintLink, PrintBold, PrintComment, PrintRed, PrintYellow, PrintGreen,
        colorStr, RemoveEmojisIfNonSupportedTerminal, hcond]
  · rintro ⟨h1, h2⟩
    simp [PrintTitle, PrintLink, PrintBold, PrintComment, PrintRed, PrintYellow, PrintGreen,
      colorStr, h1, h2]

theorem Print_style_witness :
    PrintRed ⟨true, false, fun s => s.contains 240, fun s => s.filter (fun c => c != 240),
        fun _ s => 27 :: s⟩ [240, 65] = [65] ∧
      PrintRed ⟨true, true, fun s => s.contains 240, fun s => s.filter (fun c => c != 240),
        fun _ s => 27 :: s⟩ [240, 65] = [27, 240, 65] :=
  ⟨((Print_style ⟨true, false, fun s => s.contains 240, fun s => s.filter (fun c => c != 240),
        fun _ s => 27 :: s⟩ [240, 65]).1 (Or.inr rfl) PrintRed (by simp)).1,
    ((Print_style ⟨true, true, fun s => s.contains 240, fun s => s.filter (fun c => c != 240),
        fun _ s => 27 :: s⟩ [240, 65]).2 ⟨rfl, rfl⟩).2.2.2.2.1⟩

/-! ## `append` on the heap -/

theorem elems_length (h : Heap) (s : Slice) (hv : s.valid h) : (s.elems h).length = s.len := by
  unfold Slice.elems
  rw [List.length_take, List.length_drop]
  rcases hv with ⟨hle, hc | ⟨-, hc⟩⟩ <;> omega

theorem nil_valid (h : Heap) : Slice.nil.valid h := by
  unfold Slice.valid Slice.nil
  simp

theorem nil_elems (h : Heap) : Slice.nil.elems h = [] := by
  simp [Slice.elems, Slice.nil]

theorem appendSlice_frame (grow : Nat → Nat → Nat) (h : Heap) (s : Slice)
    (xs : List GoString) (a : Nat) (ha : a < h.length) (hne : a ≠ s.arr ∨ s.cap = 0) :
    (appendSlice grow h s xs).1[a]? = h[a]? := by
  unfold appendSlice
  by_cases hx : xs = []
  · rw [if_pos hx]
  · rw [if_neg hx]
    have hpos : 0 < xs.length := List.length_pos.2 hx
    by_cases hfit : s.len + xs.length ≤ s.cap
    · rw [if_pos hfit]
      have hane : s.arr ≠ a := by
        rcases hne with hne | hne
        · exact fun e => hne e.symm
        · omega
      simp only
      rw [List.getElem?_set_ne hane]
    · rw [if_neg hfit]
      simp only
      rw [List.getElem?_append_left ha]

theorem appendSlice_length_le (grow : Nat → Nat → Nat) (h : Heap) (s : Slice)
    (xs : List GoString) : h.length ≤ (appendSlice grow h s xs).1.length := by
  unfold appendSlice
  split
  · exact le_refl _
  · split
    · simp
    · simp

theorem appendSlice_arr (grow : Nat → Nat → Nat) (h : Heap) (s : Slice)
    (xs : List GoString) :
    ((appendSlice grow h s xs).2.arr = s.arr ∧ (appendSlice grow h s xs).2.cap = s.cap) ∨
      (appendSlice grow h s xs).2.arr = h.length := by
  unfold appendSlice
  split
  · exact Or.inl ⟨rfl, rfl⟩
  · split
    · exact Or.inl ⟨rfl, rfl⟩
    · exact Or.inr rfl

theorem array_set_self (h : Heap) (k : Nat) (a : List GoString) (s : Slice) (hs : s.arr = k)
    (hlt : k < h.length) : Slice.array (h.set k a) s = a := by
  unfold Slice.array
  rw [hs, List.getElem?_set_self hlt]
  rfl

theorem appendSlice_elems_valid (grow : Nat → Nat → Nat) (hgrow : ∀ c n, n ≤ grow c n)
    (h : Heap) (s : Slice) (xs : List GoString) (hv : s.valid h) :
    (appendSlice grow h s xs).2.elems (appendSlice grow h s xs).1 = s.elems h ++ xs ∧
      (appendSlice grow h s xs).2.valid (appendSlice grow h s xs).1 := by
  have hlen := elems_length h s hv
  unfold appendSlice
  by_cases hx : xs = []
  · rw [if_pos hx, hx]
    exact ⟨by simp, hv⟩
  · rw [if_neg hx]
    have hpos : 0 < xs.length := List.length_pos.2 hx
    by_cases hfit : s.len + xs.length ≤ s.cap
    · rw [if_pos hfit]
      obtain ⟨hle, hc | ⟨hlt, hc⟩⟩ := hv
      · omega
      · simp only
        constructor
        · unfold Slice.elems
          simp only
          rw [array_set_self h s.arr _
            { arr := s.arr, off := s.off, len := s.len + xs.length, cap := s.cap } rfl hlt]
          have h1 : (s.array h).take (s.off + s.len) =
              (s.array h).take s.off ++ ((s.array h).drop s.off).take s.len := by
            rw [List.take_add]
          have h2 : ((s.array h).take s.off).length = s.off := by
            rw [List.length_take]
            omega
          rw [h1, List.append_assoc, List.append_assoc, List.drop_append_eq_append_drop, h2,
            Nat.sub_self, List.drop_zero]
          have h3 : List.drop s.off ((s.array h).take s.off) = [] := by
            rw [List.drop_eq_nil_iff]
            omega
          rw [h3, List.nil_append, ← List.append_assoc]
          have h4 : (((s.array h).drop s.off).take s.len ++ xs).length = s.len + xs.length := by
            unfold Slice.elems at hlen
            rw [List.length_append, hlen]
          rw [List.take_append_eq_append_take, h4, Nat.sub_self, List.take_zero,
            List.append_nil, List.take_of_length_le (by omega)]
        · unfold Slice.valid
          simp only
          refine ⟨hfit, Or.inr ⟨by simpa using hlt, ?_⟩⟩
          rw [array_set_self h s.arr _
            { arr := s.arr, off := s.off, len := s.len + xs.length, cap := s.cap } rfl hlt]
          simp only [List.length_append, List.length_take, List.length_drop]
          omega
    · rw [if_neg hfit]
      simp only
      have harr : ∀ (c : Nat) (a' : List GoString) (l c' : Nat),
          Slice.array (h ++ [a']) { arr := h.length, off := 0, len := l, cap := c' } = a' := by
        intro c a' l c'
        unfold Slice.array
        simp
      have hg := hgrow s.cap (s.len + xs.length)
      constructor
      · unfold Slice.elems
        rw [harr 0]
        simp only [List.drop_zero]
        have h4 : (((s.array h).drop s.off).take s.len ++ xs).length = s.len + xs.length := by
          unfold Slice.elems at hlen
          rw [List.length_append, hlen]
        rw [List.take_append_eq_append_take, h4, Nat.sub_self, List.take_zero,
          List.append_nil, List.take_of_length_le (by omega)]
      · unfold Slice.valid
        rw [harr 0]
        simp only
        refine ⟨hg, Or.inr ⟨by simp, ?_⟩⟩
        simp only [List.length_append, hlen, List.length_replicate]
        omega

/-! ## `RemoveFlagFromCommand` on the heap -/

theorem sliceLow_elems (h : Heap) (s back : Slice) (lo : Int)
    (hb : s.sliceLow lo = some back) : back.elems h = (s.elems h).drop lo.toNat := by
  unfold Slice.sliceLow at hb
  split at hb
  · cases hb
    unfold Slice.elems Slice.array
    simp only
    rw [List.drop_take, List.drop_drop]
  · cases hb

theorem sliceHigh_elems (h : Heap) (s front : Slice) (hi : Int)
    (hf : s.sliceHigh hi = some front) (hle : hi.toNat ≤ s.len) :
    front.elems h = (s.elems h).take hi.toNat := by
  unfold Slice.sliceHigh at hf
  split at hf
  · cases hf
    unfold Slice.elems Slice.array
    simp only
    rw [List.take_take, Nat.min_eq_left hle]
  · cases hf

theorem sliceHigh_valid (h : Heap) (s front : Slice) (hi : Int)
    (hf : s.sliceHigh hi = some front) (hv : s.valid h) :
    front.valid h ∧ front.arr = s.arr ∧ front.cap = s.cap := by
  unfold Slice.sliceHigh at hf
  split at hf
  · rename_i hr
    cases hf
    refine ⟨⟨?_, ?_⟩, rfl, rfl⟩
    · simp only
      omega
    · exact hv.2
  · cases hf

/-- The heap version of `RemoveFlagFromCommand` shows the list the list version computes. -/
theorem removeMem_refines (grow : Nat → Nat → Nat) (hgrow : ∀ c n, n ≤ grow c n) (h : Heap)
    (c : Slice) (fi fvi : Int) (l : List GoString) (hv : c.valid h)
    (hl : RemoveFlagFromCommand (c.elems h) fi fvi = some l) :
    ∃ res, RemoveFlagFromCommandMem grow h c fi fvi = some res ∧
      res.2.elems res.1 = l ∧
      (∀ a, a < h.length → (a ≠ c.arr ∨ c.cap = 0) → res.1[a]? = h[a]?) ∧
      ((res.2.arr = c.arr ∧ res.2.cap = c.cap) ∨ res.2.arr = h.length) := by
  have hlen := elems_length h c hv
  unfold RemoveFlagFromCommand at hl
  unfold RemoveFlagFromCommandMem
  by_cases hfi : fi = -1
  · simp only [hfi, ne_eq, not_true_eq_false, if_false] at hl ⊢
    cases hl
    exact ⟨(h, c), rfl, rfl, fun _ _ _ => rfl, Or.inl ⟨rfl, rfl⟩⟩
  · simp only [ne_eq, hfi, not_false_eq_true, if_true] at hl ⊢
    unfold sliceTo sliceFrom at hl
    rw [hlen] at hl
    by_cases h1 : 0 ≤ fi ∧ fi ≤ (c.len : Int)
    · by_cases h2 : 0 ≤ fvi + 1 ∧ fvi + 1 ≤ (c.len : Int)
      · rw [if_pos h1, if_pos h2] at hl
        simp only [Option.some.injEq] at hl
        have hcap : 0 ≤ fi ∧ fi ≤ (c.cap : Int) := by
          have := hv.1
          omega
        have hf : c.sliceHigh fi = some { c with len := fi.toNat } := by
          unfold Slice.sliceHigh
          rw [if_pos hcap]
        have hb : c.sliceLow (fvi + 1) =
            some { arr := c.arr, off := c.off + (fvi + 1).toNat,
                   len := c.len - (fvi + 1).toNat, cap := c.cap - (fvi + 1).toNat } := by
          unfold Slice.sliceLow
          rw [if_pos h2]
        rw [hf, hb]
        simp only
        obtain ⟨hfv, harr, hcapeq⟩ := sliceHigh_valid h c _ fi hf hv
        have hfe := sliceHigh_elems h c _ fi hf (by omega)
        have hbe := sliceLow_elems h c _ (fvi + 1) hb
        obtain ⟨helems, -⟩ := appendSlice_elems_valid grow hgrow h _ _ hfv
        refine ⟨_, rfl, ?_, ?_, ?_⟩
        · rw [helems, hfe, hbe]
          exact hl
        · intro a ha hne
          exact appendSlice_frame grow h _ _ a ha hne
        · exact appendSlice_arr grow h _ _
      · rw [if_pos h1, if_neg h2] at hl
        cases hl
    · rw [if_neg h1] at hl
      cases hl

theorem copy_facts (grow : Nat → Nat → Nat) (hgrow : ∀ c n, n ≤ grow c n) (h : Heap)
    (xs : List GoString) :
    (appendSlice grow h Slice.nil xs).2.elems (appendSlice grow h Slice.nil xs).1 = xs ∧
      (appendSlice grow h Slice.nil xs).2.valid (appendSlice grow h Slice.nil xs).1 ∧
      (∀ a, a < h.length → (appendSlice grow h Slice.nil xs).1[a]? = h[a]?) ∧
      h.length ≤ (appendSlice grow h Slice.nil xs).1.length ∧
      ((appendSlice grow h Slice.nil xs).2.cap = 0 ∨
        (appendSlice grow h Slice.nil xs).2.arr = h.length) := by
  obtain ⟨he, hv⟩ := appendSlice_elems_valid grow hgrow h Slice.nil xs (nil_valid h)
  refine ⟨by rw [he, nil_elems, List.nil_append], hv, ?_, appendSlice_length_le _ _ _ _, ?_⟩
  · intro a ha
    exact appendSlice_frame grow h Slice.nil xs a ha (Or.inr rfl)
  · rcases appendSlice_arr grow h Slice.nil xs with ⟨-, hc⟩ | ha
    · exact Or.inl hc
    · exact Or.inr ha

theorem elems_of_frame (h h' : Heap) (s : Slice) (hv : s.valid h)
    (hf : ∀ a, a < h.length → h'[a]? = h[a]?) : s.elems h' = s.elems h := by
  rcases hv with ⟨hle, hc | ⟨hlt, -⟩⟩
  · have : s.len = 0 := by omega
    simp [Slice.elems, this]
  · unfold Slice.elems Slice.array
    rw [hf s.arr hlt]

theorem removeFlag_of_found (F : GoString) (L : List GoString) (r : FlagResult)
    (h : FindFlag F L = some r) (he : r.err = none) :
    ∃ l, RemoveFlagFromCommand L r.flagIndex r.flagValueIndex = some l := by
  by_cases hi : r.flagIndex = -1
  · rw [hi]
    exact ⟨L, removeFlag_sentinel L _⟩
  · obtain ⟨i, hfi, hlt, hform⟩ := findFlag_found F L r h he hi
    rcases hform with ⟨hj, -⟩ | ⟨hj, hlt2, -, -⟩
    · rw [hfi, hj]
      exact ⟨_, removeFlag_span L i i hlt (le_refl _)⟩
    · have hc : ((i : Int) + 1) = ((i + 1 : Nat) : Int) := by push_cast; rfl
      rw [hfi, hj, hc]
      exact ⟨_, removeFlag_span L i (i + 1) hlt2 (by omega)⟩

theorem removeFlag_of_bool (F : GoString) (L : List GoString) :
    ∃ l, RemoveFlagFromCommand L (FindBooleanFlag F L).flagIndex
      (FindBooleanFlag F L).flagIndex = some l := by
  rcases findBooleanFlag_cases F L with ⟨-, hr⟩ | ⟨k, tok, hget, -, -, hr⟩
  · rw [hr]
    exact ⟨L, removeFlag_sentinel L _⟩
  · obtain ⟨hlt, -⟩ := List.getElem?_eq_some_iff.1 hget
    have hidx : (FindBooleanFlag F L).flagIndex = k := by
      rw [hr]
      split <;> rfl
    rw [hidx]
    exact ⟨_, removeFlag_span L k k hlt (le_refl _)⟩

/-! ## The extraction functions on the heap -/

theorem extractStringMem_spec (grow : Nat → Nat → Nat) (hgrow : ∀ c n, n ≤ grow c n)
    (h : Heap) (args : Slice) (n : GoString) :
    ∃ res, ExtractStringOptionFromArgsMem grow h args n = some res ∧
      (∀ a, a < h.length → res.1[a]? = h[a]?) ∧
      ExtractStringOptionFromArgs (args.elems h) n =
        some (res.2.1.elems res.1, res.2.2.1, res.2.2.2) := by
  obtain ⟨hce, hcv, hcf, hcl, hca⟩ := copy_facts grow hgrow h (args.elems h)
  obtain ⟨r, hr, -⟩ := findFlag_shape (str "--" ++ n) (args.elems h)
  unfold ExtractStringOptionFromArgsMem ExtractStringOptionFromArgs copyArgs
  simp only [hce, List.nil_append, hr]
  by_cases he : r.err = none
  · obtain ⟨l, hl⟩ := removeFlag_of_found _ _ r hr he
    have hl2 := hl
    rw [← hce] at hl2
    obtain ⟨res, hres, hele, hframe, -⟩ :=
      removeMem_refines grow hgrow _ _ r.flagIndex r.flagValueIndex l hcv hl2
    rw [if_neg (by simpa using he), if_neg (by simpa using he), hres, hl]
    refine ⟨_, rfl, ?_, ?_⟩
    · intro a ha
      rw [hframe a (by omega) (by omega), hcf a ha]
    · simp only [hele]
  · rw [if_pos he, if_pos he]
    exact ⟨_, rfl, hcf, by simp only [hce]⟩

theorem extractBoolMem_spec (grow : Nat → Nat → Nat) (hgrow : ∀ c n, n ≤ grow c n)
    (h : Heap) (args : Slice) (n : GoString) :
    ∃ res, ExtractBoolFlagFromArgsMem grow h args n = some res ∧
      (∀ a, a < h.length → res.1[a]? = h[a]?) ∧
      ExtractBoolFlagFromArgs (args.elems h) n =
        some (res.2.1.elems res.1, res.2.2.1, res.2.2.2) := by
  obtain ⟨hce, hcv, hcf, hcl, hca⟩ := copy_facts grow hgrow h (args.elems h)
  unfold ExtractBoolFlagFromArgsMem extractBoolOptionFromArgsMem ExtractBoolFlagFromArgs
    extractBoolOptionFromArgs copyArgs
  simp only [hce, List.nil_append]
  by_cases he : (FindBooleanFlag (str "--" ++ n) (args.elems h)).err = none
  · obtain ⟨l, hl⟩ := removeFlag_of_bool (str "--" ++ n) (args.elems h)
    have hl2 := hl
    rw [← hce] at hl2
    obtain ⟨res, hres, hele, hframe, -⟩ := removeMem_refines grow hgrow _ _ _ _ l hcv hl2
    rw [hce] at hres
    rw [if_neg (by simpa using he), if_neg (by simpa using he), hres, hl]
    refine ⟨_, rfl, ?_, ?_⟩
    · intro a ha
      rw [hframe a (by omega) (by omega), hcf a ha]
    · simp only [hele]
  · rw [if_pos he, if_pos he]
    exact ⟨_, rfl, hcf, by simp only [hce]⟩

theorem extractThreadsMem_spec (grow : Nat → Nat → Nat) (hgrow : ∀ c n, n ≤ grow c n)
    (h : Heap) (args : Slice) (d : Int) :
    ∃ res, ExtractThreadsFromArgsMem grow h args d = some res ∧
      (∀ a, a < h.length → res.1[a]? = h[a]?) ∧
      ExtractThreadsFromArgs (args.elems h) d =
        some (res.2.1.elems res.1, res.2.2.1, res.2.2.2) := by
  obtain ⟨hce, hcv, hcf, hcl, hca⟩ := copy_facts grow hgrow h (args.elems h)
  obtain ⟨r, hr, -⟩ := findFlag_shape (str "--threads") (args.elems h)
  unfold ExtractThreadsFromArgsMem ExtractThreadsFromArgs copyArgs
  simp only [hce, List.nil_append, hr]
  by_cases he : r.err = none
  · obtain ⟨l, hl⟩ := removeFlag_of_found _ _ r hr he
    have hl2 := hl
    rw [← hce] at hl2
    obtain ⟨res, hres, hele, hframe, -⟩ :=
      removeMem_refines grow hgrow _ _ r.flagIndex r.flagValueIndex l hcv hl2
    rw [if_neg (by simpa using he), if_neg (by simpa using he), hres, hl]
    have hfr : ∀ a, a < h.length → res.1[a]? = h[a]? := by
      intro a ha
      rw [hframe a (by omega) (by omega), hcf a ha]
    by_cases hv : r.flagValue = []
    · simp only [hv, ne_eq, not_true_eq_false, if_false]
      exact ⟨_, rfl, hfr, by simp only [hele]⟩
    · simp only [ne_eq, hv, not_false_eq_true, if_true]
      exact ⟨_, rfl, hfr, by simp only [hele]⟩
  · rw [if_pos he, if_pos he]
    exact ⟨_, rfl, hcf, by simp only [hce]⟩

/-- C18: the caller's argument sequence is never altered by extraction.  With `args` a
valid slice over a backing array of the heap, each of `ExtractStringOptionFromArgs`,
`ExtractBoolFlagFromArgs` and `ExtractThreadsFromArgs` returns (with or without error)
leaving every array that existed before the call as it was, so the caller's `args` holds
the same tokens at the same indices; the returned `cleanArgs`, value and error are those of
the list-level function on the tokens of `args`.  `grow` is the capacity the run time picks
for a newly allocated array. -/
theorem Extract_caller_args_unchanged (grow : Nat → Nat → Nat)
    (hgrow : ∀ c n, n ≤ grow c n) (h : Heap) (args : Slice) (hv : args.valid h)
    (n : GoString) (d : Int) :
    (∃ res, ExtractStringOptionFromArgsMem grow h args n = some res ∧
      (∀ a, a < h.length → res.1[a]? = h[a]?) ∧ args.elems res.1 = args.elems h ∧
      ExtractStringOptionFromArgs (args.elems h) n =
        some (res.2.1.elems res.1, res.2.2.1, res.2.2.2)) ∧
    (∃ res, ExtractBoolFlagFromArgsMem grow h args n = some res ∧
      (∀ a, a < h.length → res.1[a]? = h[a]?) ∧ args.elems res.1 = args.elems h ∧
      ExtractBoolFlagFromArgs (args.elems h) n =
        some (res.2.1.elems res.1, res.2.2.1, res.2.2.2)) ∧
    (∃ res, ExtractThreadsFromArgsMem grow h args d = some res ∧
      (∀ a, a < h.length → res.1[a]? = h[a]?) ∧ args.elems res.1 = args.elems h ∧
      ExtractThreadsFromArgs (args.elems h) d =
        some (res.2.1.elems res.1, res.2.2.1, res.2.2.2)) := by
  refine ⟨?_, ?_, ?_⟩
  · obtain ⟨res, hres, hf, hval⟩ := extractStringMem_spec grow hgrow h args n
    exact ⟨res, hres, hf, elems_of_frame h res.1 args hv hf, hval⟩
  · obtain ⟨res, hres, hf, hval⟩ := extractBoolMem_spec grow hgrow h args n
    exact ⟨res, hres, hf, elems_of_frame h res.1 args hv hf, hval⟩
  · obtain ⟨res, hres, hf, hval⟩ := extractThreadsMem_spec grow hgrow h args d
    exact ⟨res, hres, hf, elems_of_frame h res.1 args hv hf, hval⟩

theorem Extract_caller_args_unchanged_witness :
    (∀ c n : Nat, n ≤ (fun _ k => k + 2) c n) ∧
      Slice.valid [[str "a", str "--tag", str "v", str "b", str "zz"]] ⟨0, 0, 4, 5⟩ ∧
      ∃ res, ExtractStringOptionFromArgsMem (fun _ k => k + 2)
          [[str "a", str "--tag", str "v", str "b", str "zz"]] ⟨0, 0, 4, 5⟩ (str "tag") =
            some res ∧
        Slice.elems res.1 ⟨0, 0, 4, 5⟩ =
          Slice.elems [[str "a", str "--tag", str "v", str "b", str "zz"]] ⟨0, 0, 4, 5⟩ := by
  have hg : ∀ c n : Nat, n ≤ (fun _ k => k + 2) c n := fun c n => by simp
  have hv : Slice.valid [[str "a", str "--tag", str "v", str "b", str "zz"]] ⟨0, 0, 4, 5⟩ := by
    unfold Slice.valid
    decide
  obtain ⟨res, hres, -, hsame, -⟩ :=
    (Extract_caller_args_unchanged (fun _ k => k + 2) hg
      [[str "a", str "--tag", str "v", str "b", str "zz"]] ⟨0, 0, 4, 5⟩ hv (str "tag") 0).1
  exact ⟨hg, hv, res, hres, hsame⟩

/-- Called on the caller's own slice, `RemoveFlagFromCommand` shifts the elements inside the
caller's backing array: the copy made by the extraction functions is what protects it. -/
theorem removeFlagMem_in_place :
    RemoveFlagFromCommandMem (fun _ k => k + 2)
        [[str "a", str "--tag", str "v", str "b"]] ⟨0, 0, 4, 4⟩ 1 2 =
      some ([[str "a", str "b", str "v", str "b"]], ⟨0, 0, 2, 4⟩) := by
  decide

end Coreutils
